import Mathlib

/-!
# Pinned-connection balancer (grpc.go) and retry interceptor (retry.go)

A shallow embedding of the `pickerBuilder` state machine of `grpc.go` and of
`RetryInterceptor` of `retry.go`.

Modelling conventions.

* `resolver.Address` is a record with the single field `Addr`: `resolver.go`
  builds every address as `resolver.Address{Addr: a}`.
* `balancer.SubConn` is an opaque handle, a natural number here.
* `resolver.AddressMap` is an association list of `connInfo` records keyed by
  their own `addr` field (every `Set` call of `grpc.go` stores a record under
  the record's own address).  The order of the list stands for one order in
  which `Keys()` and `Values()` enumerate the map; Go may enumerate a map in
  another order at every call, and where the result depends on it (records
  tied in the ranking) the order of each call is an argument
  (`updatePinnedServerLockedIn`, `forgetOldConnsIn`).  The records are held by
  pointer in Go and mutated in place; here the list entry is rewritten.
* `uint16` and `uint64` fields are natural numbers, every increment and
  conversion reduced modulo `2^16` resp. `2^64`.
* `sort.Slice` is the insertion sort that Go runs on slices of at most 12
  elements.  Whatever the algorithm, the first element of the sorted slice is
  one that no other element is less than, and this is all the theorems on the
  ranking use; with pairwise distinct indices that element is the same for
  every enumeration order (`updatePinned_perm`).
* `rand.Shuffle` is its loop of swaps, the draws of the random source being an
  argument.
* The mutex is not modelled: every operation is one atomic state transformer.
* The invoker of an intercepted call is the sequence of the results of its
  successive calls.  Where the context of the call matters, it is the sequence
  telling whether the context is done when each call of the invoker returns,
  and the invoker is a function of it (`RetryInterceptorCtx`).
-/

namespace GrpcSwitch

/-! ## Data model -/

/-- The type `resolver.Address`, of which this program only sets `Addr`. -/
structure Address where
  Addr : String
deriving DecidableEq, Repr

/-- The type `balancer.SubConn`: an opaque connection handle. -/
abbrev SubConn := Nat

/-- The struct `connInfo` of grpc.go. -/
structure connInfo where
  addr : Address
  conn : SubConn
  index : Nat
  failedAt : Nat
  ready : Bool
deriving DecidableEq, Repr

/-- The struct `pinnedConn` of grpc.go. -/
structure pinnedConn where
  addr : Address
  conn : SubConn
deriving DecidableEq, Repr

/-- The map `resolver.AddressMap` holding `*connInfo` values. -/
abbrev AddressMap := List connInfo

namespace AddressMap

/-- The method `AddressMap.Get`: the record stored under `a`, if any. -/
def Get (m : AddressMap) (a : Address) : Option connInfo :=
  m.find? (fun c => decide (c.addr = a))

/-- The method `AddressMap.Set`: replace the record stored under `a`, or add one. -/
def Set : AddressMap → Address → connInfo → AddressMap
  | [], _, v => [v]
  | c :: cs, a, v => if c.addr = a then v :: cs else c :: Set cs a v

/-- The method `AddressMap.Delete`: drop what is stored under `a`. -/
def Delete (m : AddressMap) (a : Address) : AddressMap :=
  m.filter (fun c => !decide (c.addr = a))

/-- The method `AddressMap.Keys`, for the enumeration order that the list stands
for. -/
def Keys (m : AddressMap) : List Address := m.map (fun c => c.addr)

/-- The method `AddressMap.Values`, for the enumeration order that the list
stands for.  Go may enumerate the map in another order at every call: where
that matters the order is an argument (`updatePinnedServerLockedIn`). -/
def Values (m : AddressMap) : List connInfo := m

/-- The method `AddressMap.Len`. -/
def Len (m : AddressMap) : Nat := m.length

/-- In-place mutation through the pointer returned by `Get`: `v.(*connInfo).f = x`. -/
def Modify : AddressMap → Address → (connInfo → connInfo) → AddressMap
  | [], _, _ => []
  | c :: cs, a, f => if c.addr = a then f c :: cs else c :: Modify cs a f

end AddressMap

/-- The struct `pickerBuilder` of grpc.go, without the mutex, the picker
back-pointer and the random source (whose draws are arguments of `rebalance`). -/
structure pickerBuilder where
  pinned : Option pinnedConn
  maxIndex : Nat
  failureClock : Nat
  connInfo : AddressMap
deriving DecidableEq, Repr

/-- The constructor `newPickerBuilder`. -/
def newPickerBuilder : pickerBuilder :=
  { pinned := none, maxIndex := 0, failureClock := 0, connInfo := [] }

/-! ## Ranking -/

/-- The comparison closure handed to `sort.Slice` in `updatePinnedServerLocked`. -/
def less (ac bc : connInfo) : Bool :=
  decide (ac.failedAt < bc.failedAt) ||
    (decide (ac.failedAt = bc.failedAt) && decide (ac.index < bc.index))

/-- One step of insertion sort: `x` moves left past every element it is less than. -/
def insertSorted {α : Type} (lt : α → α → Bool) (x : α) : List α → List α
  | [] => [x]
  | y :: ys => if lt x y then x :: y :: ys else y :: insertSorted lt x ys

/-- The call `sort.Slice(l, lt)`, as the insertion sort Go runs on short slices:
elements are inserted left to right into the sorted part. -/
def sortSlice {α : Type} (lt : α → α → Bool) (l : List α) : List α :=
  l.foldl (fun acc x => insertSorted lt x acc) []

/-- The method `updatePinnedServerLocked`.  Sorting keeps the length of the
slice, so the empty case of the `match` (where Go would index out of range)
does not occur. -/
def updatePinnedServerLocked (pb : pickerBuilder) : pickerBuilder :=
  let candidates := (AddressMap.Values pb.connInfo).filter (fun info => info.ready)
  if candidates.length = 0 then
    { pb with pinned := none }
  else
    match sortSlice less candidates with
    | [] => { pb with pinned := none }
    | winner :: _ => { pb with pinned := some { addr := winner.addr, conn := winner.conn } }

/-! ## Mutating operations -/

/-- The method `forgetOldConns`.  The map `seen` is only tested for membership,
so the address list itself stands for it. -/
def forgetOldConns (pb : pickerBuilder) (addrs : List Address) : pickerBuilder :=
  let seen := addrs
  let connInfo := (AddressMap.Keys pb.connInfo).foldl
    (fun m addr => if addr ∈ seen then m else AddressMap.Delete m addr) pb.connInfo
  updatePinnedServerLocked { pb with connInfo := connInfo }

/-- Body of the first loop of `Build`, for one entry `c ↦ i` of `info.ReadySCs`;
the second component of the state is the local map `ready`. -/
def buildTrack (st : pickerBuilder × List Address) (sc : SubConn × Address) :
    pickerBuilder × List Address :=
  let pb := st.1
  let ready := sc.2 :: st.2
  match AddressMap.Get pb.connInfo sc.2 with
  | some _ =>
    ({ pb with connInfo := AddressMap.Modify pb.connInfo sc.2 (fun v => { v with ready := true }) },
      ready)
  | none =>
    ({ pb with
        connInfo := AddressMap.Set pb.connInfo sc.2
          { conn := sc.1, addr := sc.2, index := pb.maxIndex, failedAt := 0, ready := true }
        maxIndex := (pb.maxIndex + 1) % 2 ^ 16 },
      ready)

/-- Body of the second loop of `Build`, for one key of the inventory. -/
def buildUnready (ready : List Address) (m : AddressMap) (addr : Address) : AddressMap :=
  if addr ∈ ready then m else AddressMap.Modify m addr (fun v => { v with ready := false })

/-- The method `Build`; `readySCs` lists the entries of the map `info.ReadySCs`
in the order the `range` loop visits them.  The returned picker is the fixed
`pb.picker`, so only the new state is returned. -/
def Build (pb : pickerBuilder) (readySCs : List (SubConn × Address)) : pickerBuilder :=
  let st := readySCs.foldl buildTrack (pb, [])
  let pb1 := st.1
  let connInfo := (AddressMap.Keys pb1.connInfo).foldl (buildUnready st.2) pb1.connInfo
  updatePinnedServerLocked { pb1 with connInfo := connInfo }

/-- The closure `func(a, b int) { conns[a], conns[b] = conns[b], conns[a] }`. -/
def swap {α : Type} (l : List α) (a b : Nat) : List α :=
  match l[a]?, l[b]? with
  | some x, some y => (l.set a y).set b x
  | _, _ => l

/-- The loop of `rand.Shuffle`: for `i` from `n - 1` down to `1`, swap position
`i` with a position `j` drawn from `0..i`.  The draw made at step `i` is
`draw i`, brought into range. -/
def shuffleLoop {α : Type} (draw : Nat → Nat) : Nat → List α → List α
  | 0, l => l
  | i + 1, l => shuffleLoop draw i (swap l (i + 1) (draw (i + 1) % (i + 2)))

/-- The call `pb.shuffler.Shuffle(n, swap)` on the slice `l`. -/
def Shuffle {α : Type} (draw : Nat → Nat) (n : Nat) (l : List α) : List α :=
  shuffleLoop draw (n - 1) l

/-- The method `rebalance`; `draw` is what the random source yields.  The
records are rewritten through their pointers, so the inventory afterwards holds
the re-indexed records; they are kept in the shuffled order. -/
def rebalance (pb : pickerBuilder) (draw : Nat → Nat) : pickerBuilder :=
  let conns := AddressMap.Values pb.connInfo
  let conns := Shuffle draw conns.length conns
  let conns := conns.enum.map (fun p => { p.2 with index := p.1 % 2 ^ 16 })
  updatePinnedServerLocked { pb with connInfo := conns }

/-- A non-nil Go `error` value: a gRPC status with its code and message. -/
structure GoError where
  code : Nat
  msg : String
deriving DecidableEq, Repr

/-- The method `witnessError`. -/
def witnessError (pb : pickerBuilder) (addr : Address) (_err : GoError) : pickerBuilder :=
  match AddressMap.Get pb.connInfo addr with
  | none => pb
  | some _ =>
    let failureClock := (pb.failureClock + 1) % 2 ^ 64
    updatePinnedServerLocked
      { pb with
        failureClock := failureClock
        connInfo := AddressMap.Modify pb.connInfo addr (fun v => { v with failedAt := failureClock }) }

/-! ## The enumeration order of the inventory

Go ranges over a map in an order that is not specified and can differ from one
call of `Values()` to the next.  In the definitions below the order is an
argument: `enum m` is the order in which one call of `Values()` enumerates the
inventory `m`, a rearrangement of `m`. -/

/-- The method `updatePinnedServerLocked` with the order in which `Values()`
enumerates the inventory at this call. -/
def updatePinnedServerLockedIn (enum : List connInfo → List connInfo) (pb : pickerBuilder) :
    pickerBuilder :=
  let candidates := (enum (AddressMap.Values pb.connInfo)).filter (fun info => info.ready)
  if candidates.length = 0 then
    { pb with pinned := none }
  else
    match sortSlice less candidates with
    | [] => { pb with pinned := none }
    | winner :: _ => { pb with pinned := some { addr := winner.addr, conn := winner.conn } }

/-- The method `forgetOldConns` with the order in which `Values()` enumerates
the inventory when the selection is re-ranked.  (The order of `Keys()` in the
delete loop has no bearing on which records are deleted.) -/
def forgetOldConnsIn (enum : List connInfo → List connInfo) (pb : pickerBuilder)
    (addrs : List Address) : pickerBuilder :=
  let seen := addrs
  let connInfo := (AddressMap.Keys pb.connInfo).foldl
    (fun m addr => if addr ∈ seen then m else AddressMap.Delete m addr) pb.connInfo
  updatePinnedServerLockedIn enum { pb with connInfo := connInfo }

/-! ## Picker -/

/-- The struct `balancer.DoneInfo`, of which only `Err` is read. -/
structure DoneInfo where
  Err : Option GoError

/-- The struct `balancer.PickResult`; the hook `Done` acts on the builder state. -/
structure PickResult where
  SubConn : GrpcSwitch.SubConn
  Done : DoneInfo → pickerBuilder → pickerBuilder

/-- The errors `Pick` can return. -/
inductive PickError where
  | ErrNoSubConnAvailable
deriving DecidableEq, Repr

/-- The method `picker.Pick`. -/
def Pick (pb : pickerBuilder) : Except PickError PickResult :=
  match pb.pinned with
  | none => Except.error PickError.ErrNoSubConnAvailable
  | some pinned =>
    Except.ok
      { SubConn := pinned.conn
        Done := fun info b =>
          match info.Err with
          | some err => witnessError b pinned.addr err
          | none => b }

/-! ## Sequences of operations -/

/-- The mutating calls a `pickerBuilder` receives. -/
inductive Op where
  | Build (readySCs : List (SubConn × Address))
  | forgetOldConns (addrs : List Address)
  | witnessError (addr : Address) (err : GoError)
  | rebalance (draw : Nat → Nat)

/-- One call. -/
def step (pb : pickerBuilder) : Op → pickerBuilder
  | Op.Build readySCs => Build pb readySCs
  | Op.forgetOldConns addrs => forgetOldConns pb addrs
  | Op.witnessError addr err => witnessError pb addr err
  | Op.rebalance draw => rebalance pb draw

/-- A sequence of calls, from left to right. -/
def run (ops : List Op) (pb : pickerBuilder) : pickerBuilder :=
  ops.foldl step pb

/-- Whether a call is a `witnessError`. -/
def Op.isWitness : Op → Bool
  | Op.witnessError _ _ => true
  | _ => false

/-- How many failures a sequence of calls reports. -/
def witnessCount (ops : List Op) : Nat := (ops.filter Op.isWitness).length

/-- The total length of the ready snapshots handed to `Build`.  It counts every
entry of a snapshot, also the entries for addresses that are tracked already
and for which no record is created, so it is an upper bound on, not the number
of, the records the calls create. -/
def buildCount : List Op → Nat
  | [] => 0
  | Op.Build readySCs :: ops => readySCs.length + buildCount ops
  | _ :: ops => buildCount ops

/-! ## Retry interceptor -/

/-- The constant `codes.OK`. -/
def codeOK : Nat := 0

/-- The constant `codes.ResourceExhausted`. -/
def ResourceExhausted : Nat := 8

/-- The function `status.Code` on the errors modelled here. -/
def statusCode : Option GoError → Nat
  | none => codeOK
  | some e => e.code

/-- What one intercepted call did: the error returned, how often the invoker
was called and how often the interceptor slept. -/
structure RetryOutcome where
  err : Option GoError
  invocations : Nat
  sleeps : Nat
deriving DecidableEq, Repr

/-- The loop of `RetryInterceptor`.  The invoker is the sequence of its
results: its call number `k` (from 0) returns `invoker k`. -/
def retryLoop (invoker : Nat → Option GoError) (attempts calls sleeps : Nat) : RetryOutcome :=
  let err := invoker calls
  if statusCode err = ResourceExhausted ∧ attempts < 5 then
    retryLoop invoker (attempts + 1) (calls + 1) (sleeps + 1)
  else
    { err := err, invocations := calls + 1, sleeps := sleeps }
termination_by 5 - attempts

/-- The interceptor returned by `RetryInterceptor`. -/
def RetryInterceptor (invoker : Nat → Option GoError) : RetryOutcome :=
  retryLoop invoker 1 0 0

/-! ## Example data -/

/-- Three backends. -/
def addrA : Address := { Addr := "10.0.0.1:8502" }

/-- Second backend. -/
def addrB : Address := { Addr := "10.0.0.2:8502" }

/-- Third backend. -/
def addrC : Address := { Addr := "10.0.0.3:8502" }

/-- An overload error as the server of main.go sends it. -/
def errExhausted : GoError := { code := ResourceExhausted, msg := "ruh roh" }

/-- An inventory with a failed, a never-failed, a not-ready and an earlier-failed record. -/
def pbRanked : pickerBuilder :=
  { pinned := none, maxIndex := 3, failureClock := 5,
    connInfo :=
      [ { addr := addrA, conn := 11, index := 0, failedAt := 5, ready := true },
        { addr := addrB, conn := 12, index := 1, failedAt := 3, ready := true },
        { addr := addrC, conn := 13, index := 2, failedAt := 0, ready := false } ] }

/-- An invoker that is overloaded four times and then succeeds. -/
def invokerFourOverloads : Nat → Option GoError :=
  fun k => if k < 4 then some errExhausted else none

/-- Two ready backends that never failed; A is published. -/
def pbTwoReady : pickerBuilder :=
  { pinned := some { addr := addrA, conn := 11 }, maxIndex := 2, failureClock := 0,
    connInfo :=
      [ { addr := addrA, conn := 11, index := 0, failedAt := 0, ready := true },
        { addr := addrB, conn := 12, index := 1, failedAt := 0, ready := true } ] }

/-- A first `Build` that reports A and B ready. -/
def opsTwoReady : List Op := [Op.Build [(11, addrA), (12, addrB)]]

/-- The resolver drops B and brings it back: B is forgotten and then, ready
again, tracked anew. -/
def churnRound : List Op :=
  [Op.forgetOldConns [addrA], Op.Build [(11, addrA), (12, addrB)]]

/-- A and B become ready; then B is dropped and comes back 65535 times. -/
def churnOps : List Op :=
  Op.Build [(11, addrA), (12, addrB)] :: (List.replicate 65535 churnRound).flatten

/-- The state between two rounds of `churnOps`: A has index 0, B has index `j`,
and the next index to hand out is `k`. -/
def churnState (k j : Nat) : pickerBuilder :=
  { pinned := some { addr := addrA, conn := 11 }, maxIndex := k, failureClock := 0,
    connInfo :=
      [ { addr := addrA, conn := 11, index := 0, failedAt := 0, ready := true },
        { addr := addrB, conn := 12, index := j, failedAt := 0, ready := true } ] }

/-- A and B become ready, then the resolver drops B. -/
def opsDropB : List Op := [Op.Build [(11, addrA), (12, addrB)], Op.forgetOldConns [addrA]]

/-- The connection `Pick` hands to the caller: the field `SubConn` of its
result, if it returns one. -/
def pickedConn (pb : pickerBuilder) : Option SubConn :=
  match Pick pb with
  | Except.ok r => some r.SubConn
  | Except.error _ => none

/-- The interceptor with its argument `ctx` made explicit.  The source hands
`ctx` to the invoker and reads it nowhere else; `ctx k` tells whether the
context is done when call `k` of the invoker returns. -/
def RetryInterceptorCtx (ctx : Nat → Bool) (invoker : (Nat → Bool) → Nat → Option GoError) :
    RetryOutcome :=
  RetryInterceptor (invoker ctx)

/-- The constant `codes.Canceled`. -/
def Canceled : Nat := 1

/-- A context that is done from the first call on. -/
def ctxDone : Nat → Bool := fun _ => true

/-- An invoker whose first call is answered with an overload and whose later
calls fail with `Canceled` when the context is done. -/
def invokerThenCanceled : (Nat → Bool) → Nat → Option GoError :=
  fun ctx k =>
    if k = 0 then some errExhausted
    else if ctx k then some { code := Canceled, msg := "context canceled" }
    else none

/-- The states of the end-to-end scenario: A and B become ready. -/
def scenario1 : pickerBuilder := Build newPickerBuilder [(11, addrA), (12, addrB)]

/-- Then a call on A fails. -/
def scenario2 : pickerBuilder := witnessError scenario1 addrA errExhausted

/-- Then A and B are reported ready again. -/
def scenario3 : pickerBuilder := Build scenario2 [(11, addrA), (12, addrB)]

/-- Then a call on B fails. -/
def scenario4 : pickerBuilder := witnessError scenario3 addrB errExhausted

/-- Only B is reported ready after A and B were. -/
def opsOnlyB : List Op := [Op.Build [(11, addrA), (12, addrB)], Op.Build [(12, addrB)]]

/-- A and B become ready and a call on A fails. -/
def opsAFailed : List Op :=
  [Op.Build [(11, addrA), (12, addrB)], Op.witnessError addrA errExhausted]

/-- Only A becomes ready. -/
def opsOnlyA : List Op := [Op.Build [(11, addrA)]]

/-! ## Sorting lemmas -/

theorem insertSorted_perm {α : Type} (lt : α → α → Bool) (x : α) (l : List α) :
    (insertSorted lt x l).Perm (x :: l) := by
  induction l with
  | nil => exact List.Perm.refl _
  | cons y ys ih =>
    unfold insertSorted
    split
    · exact List.Perm.refl _
    · exact (List.Perm.cons y ih).trans (List.Perm.swap x y ys)

theorem foldl_insertSorted_perm {α : Type} (lt : α → α → Bool) (l acc : List α) :
    (l.foldl (fun acc x => insertSorted lt x acc) acc).Perm (l ++ acc) := by
  induction l generalizing acc with
  | nil => exact List.Perm.refl _
  | cons x xs ih =>
    simp only [List.foldl_cons, List.cons_append]
    refine (ih _).trans ?_
    refine (List.Perm.append_left xs (insertSorted_perm lt x acc)).trans ?_
    exact List.perm_middle

theorem sortSlice_perm {α : Type} (lt : α → α → Bool) (l : List α) :
    (sortSlice lt l).Perm l := by
  have h := foldl_insertSorted_perm lt l []
  simpa [sortSlice] using h

theorem insertSorted_pairwise {α : Type} (lt : α → α → Bool)
    (hirr : ∀ a, lt a a = false)
    (htrans : ∀ a b c, lt a b = true → lt b c = true → lt a c = true)
    (x : α) (l : List α) (hl : l.Pairwise (fun a b => lt b a = false)) :
    (insertSorted lt x l).Pairwise (fun a b => lt b a = false) := by
  induction l with
  | nil => simp [insertSorted]
  | cons y ys ih =>
    rw [List.pairwise_cons] at hl
    unfold insertSorted
    split
    · rename_i hxy
      refine List.pairwise_cons.2 ⟨?_, List.pairwise_cons.2 hl⟩
      intro z hz
      cases hzx : lt z x with
      | false => rfl
      | true =>
        have hzy : lt z y = true := htrans z x y hzx hxy
        rcases List.mem_cons.1 hz with rfl | hz2
        · rw [hirr z] at hzy
          exact absurd hzy (by decide)
        · rw [hl.1 z hz2] at hzy
          exact absurd hzy (by decide)
    · rename_i hxy
      refine List.pairwise_cons.2 ⟨?_, ih hl.2⟩
      intro z hz
      rcases List.mem_cons.1 ((insertSorted_perm lt x ys).subset hz) with rfl | hz2
      · simpa using hxy
      · exact hl.1 z hz2

theorem foldl_insertSorted_pairwise {α : Type} (lt : α → α → Bool)
    (hirr : ∀ a, lt a a = false)
    (htrans : ∀ a b c, lt a b = true → lt b c = true → lt a c = true)
    (l acc : List α) (hacc : acc.Pairwise (fun a b => lt b a = false)) :
    (l.foldl (fun acc x => insertSorted lt x acc) acc).Pairwise
      (fun a b => lt b a = false) := by
  induction l generalizing acc with
  | nil => exact hacc
  | cons x xs ih =>
    simp only [List.foldl_cons]
    exact ih _ (insertSorted_pairwise lt hirr htrans x acc hacc)

theorem sortSlice_pairwise {α : Type} (lt : α → α → Bool)
    (hirr : ∀ a, lt a a = false)
    (htrans : ∀ a b c, lt a b = true → lt b c = true → lt a c = true)
    (l : List α) : (sortSlice lt l).Pairwise (fun a b => lt b a = false) :=
  foldl_insertSorted_pairwise lt hirr htrans l [] List.Pairwise.nil

/-- The first element of a sorted slice is an element of the slice that no
element of the slice is less than. -/
theorem sortSlice_head {α : Type} (lt : α → α → Bool)
    (hirr : ∀ a, lt a a = false)
    (htrans : ∀ a b c, lt a b = true → lt b c = true → lt a c = true)
    (l : List α) (w : α) (rest : List α) (h : sortSlice lt l = w :: rest) :
    w ∈ l ∧ ∀ c ∈ l, lt c w = false := by
  have hp := sortSlice_perm lt l
  have hs := sortSlice_pairwise lt hirr htrans l
  rw [h] at hp hs
  refine ⟨hp.subset (List.mem_cons_self _ _), ?_⟩
  intro c hc
  rcases List.mem_cons.1 (hp.symm.subset hc) with rfl | hc2
  · exact hirr _
  · exact (List.pairwise_cons.1 hs).1 c hc2

theorem less_iff (a b : connInfo) :
    less a b = true ↔
      a.failedAt < b.failedAt ∨ (a.failedAt = b.failedAt ∧ a.index < b.index) := by
  simp [less]

theorem less_irrefl (a : connInfo) : less a a = false := by
  cases h : less a a with
  | false => rfl
  | true => rw [less_iff] at h; omega

theorem less_trans (a b c : connInfo) (hab : less a b = true) (hbc : less b c = true) :
    less a c = true := by
  rw [less_iff] at *
  omega

theorem less_eq_false_iff (a b : connInfo) :
    less a b = false ↔
      b.failedAt < a.failedAt ∨ (b.failedAt = a.failedAt ∧ b.index ≤ a.index) := by
  rw [← Bool.not_eq_true, less_iff]
  omega

/-- What `updatePinnedServerLocked` publishes, as a function of the inventory. -/
theorem updatePinned_none (pb : pickerBuilder)
    (h : ∀ c ∈ pb.connInfo, c.ready = false) :
    (updatePinnedServerLocked pb).pinned = none := by
  have hf : (AddressMap.Values pb.connInfo).filter (fun info => info.ready) = [] := by
    rw [List.filter_eq_nil_iff]
    intro c hc
    simp [h c hc]
  simp [updatePinnedServerLocked, hf]

theorem updatePinned_some (pb : pickerBuilder) (c : connInfo)
    (hc : c ∈ pb.connInfo) (hr : c.ready = true) :
    ∃ w, w ∈ pb.connInfo ∧ w.ready = true ∧
      (updatePinnedServerLocked pb).pinned = some { addr := w.addr, conn := w.conn } ∧
      ∀ d ∈ pb.connInfo, d.ready = true → less d w = false := by
  have hmem : c ∈ (AddressMap.Values pb.connInfo).filter (fun info => info.ready) := by
    simp [AddressMap.Values, hc, hr]
  have hlen : ((AddressMap.Values pb.connInfo).filter (fun info => info.ready)).length ≠ 0 := by
    intro h0
    rw [List.length_eq_zero] at h0
    rw [h0] at hmem
    exact absurd hmem (List.not_mem_nil _)
  cases hs : sortSlice less ((AddressMap.Values pb.connInfo).filter (fun info => info.ready)) with
  | nil =>
    have hp := sortSlice_perm less ((AddressMap.Values pb.connInfo).filter (fun info => info.ready))
    rw [hs] at hp
    exact absurd (hp.symm.subset hmem) (List.not_mem_nil _)
  | cons w rest =>
    obtain ⟨hw, hmin⟩ := sortSlice_head less less_irrefl less_trans _ w rest hs
    have hw2 : w ∈ pb.connInfo ∧ w.ready = true := by
      simpa [AddressMap.Values] using hw
    refine ⟨w, hw2.1, hw2.2, ?_, ?_⟩
    · simp only [updatePinnedServerLocked, if_neg hlen, hs]
    · intro d hd hdr
      exact hmin d (by simp [AddressMap.Values, hd, hdr])

/-! ## C1: ranking -/

/-- C1. For every inventory, `updatePinnedServerLocked` publishes nothing when no
record is ready; when some record is ready it publishes the address and handle
of a ready record `w` whose pair `(failedAt, index)` is lexicographically least
among the ready records.  Hence `w.failedAt` is the least `failedAt` of a ready
record: a ready record that never failed keeps every failed one from being
chosen, and of two failed ready records the one with the larger `failedAt` is
not chosen. -/
theorem C1_ranking (pb : pickerBuilder) :
    ((∀ c ∈ pb.connInfo, c.ready = false) →
      (updatePinnedServerLocked pb).pinned = none) ∧
    ((∃ c ∈ pb.connInfo, c.ready = true) →
      ∃ w ∈ pb.connInfo, w.ready = true ∧
        (updatePinnedServerLocked pb).pinned = some { addr := w.addr, conn := w.conn } ∧
        (∀ d ∈ pb.connInfo, d.ready = true →
          w.failedAt < d.failedAt ∨ (w.failedAt = d.failedAt ∧ w.index ≤ d.index)) ∧
        (∀ d ∈ pb.connInfo, d.ready = true → d.failedAt = 0 → w.failedAt = 0) ∧
        (∀ a ∈ pb.connInfo, ∀ b ∈ pb.connInfo, a.ready = true → b.ready = true →
          a.failedAt < b.failedAt → w ≠ b)) := by
  refine ⟨updatePinned_none pb, ?_⟩
  rintro ⟨c, hc, hr⟩
  obtain ⟨w, hw, hwr, hpin, hmin⟩ := updatePinned_some pb c hc hr
  have hlex : ∀ d ∈ pb.connInfo, d.ready = true →
      w.failedAt < d.failedAt ∨ (w.failedAt = d.failedAt ∧ w.index ≤ d.index) := by
    intro d hd hdr
    exact (less_eq_false_iff d w).1 (hmin d hd hdr)
  refine ⟨w, hw, hwr, hpin, hlex, ?_, ?_⟩
  · intro d hd hdr h0
    have := hlex d hd hdr
    omega
  · intro a ha b _ har _ hab hwb
    have := hlex a ha har
    rw [hwb] at this
    omega

/-- C1 at `pbRanked`: the record that failed at tick 3 is published, not the one
that failed at tick 5 and not the record that is not ready. -/
theorem C1_ranking_witness :
    (updatePinnedServerLocked pbRanked).pinned = some { addr := addrB, conn := 12 } := by
  obtain ⟨w, hw, hwr, hpin, _, _, hne⟩ :=
    (C1_ranking pbRanked).2
      ⟨{ addr := addrA, conn := 11, index := 0, failedAt := 5, ready := true },
        by decide, rfl⟩
  rw [hpin]
  have hw2 : w = { addr := addrA, conn := 11, index := 0, failedAt := 5, ready := true } ∨
      w = { addr := addrB, conn := 12, index := 1, failedAt := 3, ready := true } ∨
      w = { addr := addrC, conn := 13, index := 2, failedAt := 0, ready := false } := by
    simpa [pbRanked] using hw
  rcases hw2 with h | h | h
  · exfalso
    refine hne { addr := addrB, conn := 12, index := 1, failedAt := 3, ready := true }
      (by decide) w hw (by rfl) hwr ?_ rfl
    rw [h]
    decide
  · rw [h]
  · rw [h] at hwr
    exact absurd hwr (by decide)

/-! ## C5: retry interceptor -/

/-- The loop of `RetryInterceptor` unrolled: it stops at the first of its first
four results that is not an overload, and at the fifth result otherwise. -/
theorem retry_unfold (invoker : Nat → Option GoError) :
    RetryInterceptor invoker =
      if statusCode (invoker 0) ≠ ResourceExhausted then
        { err := invoker 0, invocations := 1, sleeps := 0 }
      else if statusCode (invoker 1) ≠ ResourceExhausted then
        { err := invoker 1, invocations := 2, sleeps := 1 }
      else if statusCode (invoker 2) ≠ ResourceExhausted then
        { err := invoker 2, invocations := 3, sleeps := 2 }
      else if statusCode (invoker 3) ≠ ResourceExhausted then
        { err := invoker 3, invocations := 4, sleeps := 3 }
      else
        { err := invoker 4, invocations := 5, sleeps := 4 } := by
  unfold RetryInterceptor
  by_cases h0 : statusCode (invoker 0) = ResourceExhausted
  · by_cases h1 : statusCode (invoker 1) = ResourceExhausted
    · by_cases h2 : statusCode (invoker 2) = ResourceExhausted
      · by_cases h3 : statusCode (invoker 3) = ResourceExhausted
        · rw [retryLoop, retryLoop, retryLoop, retryLoop, retryLoop]
          simp [h0, h1, h2, h3]
        · rw [retryLoop, retryLoop, retryLoop, retryLoop]
          simp [h0, h1, h2, h3]
      · rw [retryLoop, retryLoop, retryLoop]
        simp [h0, h1, h2]
    · rw [retryLoop, retryLoop]
      simp [h0, h1]
  · rw [retryLoop]
    simp [h0]

/-- C5. The interceptor calls the invoker `min 5 k` times, `k` being the position
(counted from 1) of the first result whose code is not `ResourceExhausted`, and
5 times when there is no such result; it returns the result of its last call
unchanged, and sleeps once before every call but the first. -/
theorem C5_retry (invoker : Nat → Option GoError) :
    (∀ i, statusCode (invoker i) ≠ ResourceExhausted →
        (∀ j, j < i → statusCode (invoker j) = ResourceExhausted) →
        (RetryInterceptor invoker).invocations = min 5 (i + 1)) ∧
    ((∀ j, statusCode (invoker j) = ResourceExhausted) →
        (RetryInterceptor invoker).invocations = 5) ∧
    (RetryInterceptor invoker).err = invoker ((RetryInterceptor invoker).invocations - 1) ∧
    (RetryInterceptor invoker).sleeps = (RetryInterceptor invoker).invocations - 1 := by
  rw [retry_unfold]
  refine ⟨?_, ?_, ?_, ?_⟩
  · intro i hi hlt
    have hle : ∀ k, statusCode (invoker k) ≠ ResourceExhausted → i ≤ k := by
      intro k hk
      by_contra hcon
      exact hk (hlt k (by omega))
    have hne : ∀ k, statusCode (invoker k) = ResourceExhausted → k ≠ i := by
      intro k hk hki
      rw [hki] at hk
      exact hi hk
    by_cases h0 : statusCode (invoker 0) = ResourceExhausted
    · by_cases h1 : statusCode (invoker 1) = ResourceExhausted
      · by_cases h2 : statusCode (invoker 2) = ResourceExhausted
        · by_cases h3 : statusCode (invoker 3) = ResourceExhausted
          · have := hne 0 h0; have := hne 1 h1; have := hne 2 h2; have := hne 3 h3
            simp only [h0, h1, h2, h3, ne_eq, not_true_eq_false, if_false]
            omega
          · have := hne 0 h0; have := hne 1 h1; have := hne 2 h2; have := hle 3 h3
            simp only [h0, h1, h2, h3, ne_eq, not_true_eq_false, not_false_eq_true, if_false,
              if_true]
            omega
        · have := hne 0 h0; have := hne 1 h1; have := hle 2 h2
          simp only [h0, h1, h2, ne_eq, not_true_eq_false, not_false_eq_true, if_false, if_true]
          omega
      · have := hne 0 h0; have := hle 1 h1
        simp only [h0, h1, ne_eq, not_true_eq_false, not_false_eq_true, if_false, if_true]
        omega
    · have := hle 0 h0
      simp only [h0, ne_eq, not_false_eq_true, if_true]
      omega
  · intro hall
    simp [hall]
  · split_ifs <;> rfl
  · split_ifs <;> rfl

/-- C5 at two invokers: four overloads and then a success give the success after
5 calls; overloads throughout give the overload error after 5 calls. -/
theorem C5_retry_witness :
    (RetryInterceptor invokerFourOverloads).invocations = 5 ∧
    (RetryInterceptor invokerFourOverloads).err = none ∧
    (RetryInterceptor (fun _ => some errExhausted)).invocations = 5 ∧
    (RetryInterceptor (fun _ => some errExhausted)).err = some errExhausted := by
  have h1 := (C5_retry invokerFourOverloads).1 4 (by decide)
    (by intro j hj; interval_cases j <;> decide)
  have h2 := (C5_retry invokerFourOverloads).2.2.1
  have h3 := (C5_retry (fun _ => some errExhausted)).2.1 (fun _ => rfl)
  have h4 := (C5_retry (fun _ => some errExhausted)).2.2.1
  refine ⟨h1, ?_, h3, h4⟩
  rw [h2, h1]
  rfl

/-! ## Frame lemmas for the ranking and the address map -/

theorem updatePinned_connInfo (pb : pickerBuilder) :
    (updatePinnedServerLocked pb).connInfo = pb.connInfo := by
  unfold updatePinnedServerLocked
  simp only
  split
  · rfl
  · split <;> rfl

theorem updatePinned_maxIndex (pb : pickerBuilder) :
    (updatePinnedServerLocked pb).maxIndex = pb.maxIndex := by
  unfold updatePinnedServerLocked
  simp only
  split
  · rfl
  · split <;> rfl

theorem updatePinned_failureClock (pb : pickerBuilder) :
    (updatePinnedServerLocked pb).failureClock = pb.failureClock := by
  unfold updatePinnedServerLocked
  simp only
  split
  · rfl
  · split <;> rfl

theorem updatePinned_pinned_congr (pb qb : pickerBuilder) (h : pb.connInfo = qb.connInfo) :
    (updatePinnedServerLocked pb).pinned = (updatePinnedServerLocked qb).pinned := by
  unfold updatePinnedServerLocked
  simp only [h]
  split
  · rfl
  · split <;> rfl

theorem pickerBuilder_ext (a b : pickerBuilder) (h1 : a.pinned = b.pinned)
    (h2 : a.maxIndex = b.maxIndex) (h3 : a.failureClock = b.failureClock)
    (h4 : a.connInfo = b.connInfo) : a = b := by
  cases a
  cases b
  simp only [pickerBuilder.mk.injEq]
  exact ⟨h1, h2, h3, h4⟩

theorem Modify_map {β : Type} (g : connInfo → β) (f : connInfo → connInfo)
    (hg : ∀ c, g (f c) = g c) (m : AddressMap) (a : Address) :
    (AddressMap.Modify m a f).map g = m.map g := by
  induction m with
  | nil => rfl
  | cons c cs ih =>
    unfold AddressMap.Modify
    split
    · simp [hg]
    · simp only [List.map_cons, ih]

theorem Get_cons (d : connInfo) (ds : AddressMap) (a : Address) :
    AddressMap.Get (d :: ds) a = if d.addr = a then some d else AddressMap.Get ds a := by
  unfold AddressMap.Get
  rw [List.find?_cons]
  by_cases h : d.addr = a <;> simp [h]

theorem Get_Modify_self (f : connInfo → connInfo) (hf : ∀ c, (f c).addr = c.addr)
    (m : AddressMap) (a : Address) (c : connInfo) (h : AddressMap.Get m a = some c) :
    AddressMap.Get (AddressMap.Modify m a f) a = some (f c) := by
  induction m with
  | nil => simp [AddressMap.Get] at h
  | cons d ds ih =>
    rw [Get_cons] at h
    unfold AddressMap.Modify
    by_cases hd : d.addr = a
    · rw [if_pos hd] at h
      rw [if_pos hd, Get_cons, if_pos ((hf d).trans hd)]
      rw [Option.some.inj h]
    · rw [if_neg hd] at h
      rw [if_neg hd, Get_cons, if_neg hd]
      exact ih h

theorem Get_Modify_other (f : connInfo → connInfo) (hf : ∀ c, (f c).addr = c.addr)
    (m : AddressMap) (a b : Address) (hab : b ≠ a) :
    AddressMap.Get (AddressMap.Modify m a f) b = AddressMap.Get m b := by
  induction m with
  | nil => rfl
  | cons d ds ih =>
    unfold AddressMap.Modify
    by_cases hd : d.addr = a
    · have hdb : ¬ d.addr = b := by rw [hd]; exact fun h => hab h.symm
      have hfdb : ¬ (f d).addr = b := by rw [hf]; exact hdb
      rw [if_pos hd, Get_cons, if_neg hfdb, Get_cons, if_neg hdb]
    · rw [if_neg hd, Get_cons, Get_cons, ih]

theorem Get_eq_none_iff (m : AddressMap) (a : Address) :
    AddressMap.Get m a = none ↔ ∀ c ∈ m, c.addr ≠ a := by
  simp [AddressMap.Get, List.find?_eq_none]

theorem Get_some_mem (m : AddressMap) (a : Address) (c : connInfo)
    (h : AddressMap.Get m a = some c) : c ∈ m ∧ c.addr = a := by
  unfold AddressMap.Get at h
  refine ⟨List.mem_of_find?_eq_some h, ?_⟩
  simpa using List.find?_some h

/-! ## C6: the picker -/

/-- C6. `Pick` fails, with `ErrNoSubConnAvailable`, exactly when nothing is
published.  Otherwise it returns the published handle and a hook `Done` which,
run on whatever state the builder is in by then, acts as `witnessError` on the
address published at pick time when the call failed, and changes nothing when
the call succeeded. -/
theorem C6_pick (pb : pickerBuilder) :
    ((∃ e, Pick pb = Except.error e) ↔ pb.pinned = none) ∧
    (pb.pinned = none → Pick pb = Except.error PickError.ErrNoSubConnAvailable) ∧
    (∀ p, pb.pinned = some p →
      ∃ r, Pick pb = Except.ok r ∧ r.SubConn = p.conn ∧
        ∀ later : pickerBuilder,
          (∀ err, r.Done { Err := some err } later = witnessError later p.addr err) ∧
          r.Done { Err := none } later = later) := by
  refine ⟨?_, ?_, ?_⟩
  · constructor
    · rintro ⟨e, he⟩
      cases hp : pb.pinned with
      | none => rfl
      | some p => simp [Pick, hp] at he
    · intro hp
      exact ⟨PickError.ErrNoSubConnAvailable, by simp [Pick, hp]⟩
  · intro hp
    simp [Pick, hp]
  · intro p hp
    refine ⟨{ SubConn := p.conn
              Done := fun info b =>
                match info.Err with
                | some err => witnessError b p.addr err
                | none => b }, ?_, rfl, ?_⟩
    · simp only [Pick, hp]
    · intro later
      exact ⟨fun _ => rfl, rfl⟩

/-- C6 on a run: A is published when `Pick` is called; the inventory is
rebalanced so that B is published; the failed call is still booked on A. -/
theorem C6_pick_witness :
    ∃ r, Pick pbTwoReady = Except.ok r ∧ r.SubConn = 11 ∧
      r.Done { Err := some errExhausted } (rebalance pbTwoReady (fun _ => 0)) =
        witnessError (rebalance pbTwoReady (fun _ => 0)) addrA errExhausted := by
  obtain ⟨r, hr, hc, hd⟩ := (C6_pick pbTwoReady).2.2 { addr := addrA, conn := 11 } rfl
  exact ⟨r, hr, hc, (hd _).1 errExhausted⟩

/-! ## C7, C8: witnessError -/

theorem witnessError_tracked (pb : pickerBuilder) (X : Address) (err : GoError) (c : connInfo)
    (h : AddressMap.Get pb.connInfo X = some c) :
    witnessError pb X err =
      updatePinnedServerLocked
        { pb with
          failureClock := (pb.failureClock + 1) % 2 ^ 64
          connInfo := AddressMap.Modify pb.connInfo X
            (fun v => { v with failedAt := (pb.failureClock + 1) % 2 ^ 64 }) } := by
  simp only [witnessError, h]

theorem witnessError_untracked (pb : pickerBuilder) (X : Address) (err : GoError)
    (h : AddressMap.Get pb.connInfo X = none) : witnessError pb X err = pb := by
  simp only [witnessError, h]

/-- C7. On a tracked address `X`, `witnessError` advances `failureClock` by one
(as a `uint64`: to `(failureClock + 1) mod 2^64`, which is `failureClock + 1`
unless the clock stood at its last value), stores the new clock value in the
`failedAt` of the record of `X`, and leaves alone the tracked addresses with
their order, the handle, index and readiness of every record, the whole record
of every other address, and `maxIndex`. -/
theorem C7_witnessError_tracked (pb : pickerBuilder) (X : Address) (err : GoError)
    (c : connInfo) (h : AddressMap.Get pb.connInfo X = some c) :
    (witnessError pb X err).failureClock = (pb.failureClock + 1) % 2 ^ 64 ∧
    (pb.failureClock + 1 < 2 ^ 64 →
      (witnessError pb X err).failureClock = pb.failureClock + 1) ∧
    AddressMap.Get (witnessError pb X err).connInfo X =
      some { c with failedAt := (witnessError pb X err).failureClock } ∧
    (∀ Y, Y ≠ X →
      AddressMap.Get (witnessError pb X err).connInfo Y = AddressMap.Get pb.connInfo Y) ∧
    (witnessError pb X err).connInfo.map (fun d => (d.addr, d.conn, d.index, d.ready)) =
      pb.connInfo.map (fun d => (d.addr, d.conn, d.index, d.ready)) ∧
    (witnessError pb X err).maxIndex = pb.maxIndex := by
  rw [witnessError_tracked pb X err c h]
  simp only [updatePinned_connInfo, updatePinned_failureClock, updatePinned_maxIndex]
  refine ⟨trivial, ?_, ?_, ?_, ?_⟩
  · intro hlt
    exact Nat.mod_eq_of_lt hlt
  · refine Get_Modify_self _ ?_ _ _ _ h
    intro _
    rfl
  · intro Y hY
    refine Get_Modify_other _ ?_ _ _ _ hY
    intro _
    rfl
  · refine ⟨Modify_map _ _ ?_ _ _, trivial⟩
    intro _
    rfl

/-- C7 at `pbTwoReady`: a failure of A moves the clock from 0 to 1 and stamps A. -/
theorem C7_witnessError_tracked_witness :
    (witnessError pbTwoReady addrA errExhausted).failureClock = 1 ∧
    AddressMap.Get (witnessError pbTwoReady addrA errExhausted).connInfo addrA =
      some { addr := addrA, conn := 11, index := 0, failedAt := 1, ready := true } := by
  have h := C7_witnessError_tracked pbTwoReady addrA errExhausted
    { addr := addrA, conn := 11, index := 0, failedAt := 0, ready := true } (by decide)
  have h1 := h.2.1 (by decide)
  have h2 := h.2.2.1
  rw [h1] at h2
  exact ⟨h1, h2⟩

/-- C8. On an address that has no record, `witnessError` returns the state it
was given: inventory, `failureClock`, `maxIndex` and published selection are
all unchanged (and the Go method has no error result to signal). -/
theorem C8_witnessError_untracked (pb : pickerBuilder) (X : Address) (err : GoError)
    (h : AddressMap.Get pb.connInfo X = none) :
    witnessError pb X err = pb := by
  simp only [witnessError, h]

/-- C8 at `pbTwoReady`, where C is not tracked. -/
theorem C8_witnessError_untracked_witness :
    AddressMap.Get pbTwoReady.connInfo addrC = none ∧
    witnessError pbTwoReady addrC errExhausted = pbTwoReady :=
  ⟨by decide, C8_witnessError_untracked pbTwoReady addrC errExhausted (by decide)⟩

/-! ## C9: forgetOldConns -/

theorem forget_step (L : List Address) (m : AddressMap) (a : Address) :
    (if a ∈ L then m else AddressMap.Delete m a) =
      m.filter (fun c => decide (c.addr ∈ L) || !decide (c.addr = a)) := by
  by_cases ha : a ∈ L
  · rw [if_pos ha]
    symm
    rw [List.filter_eq_self]
    intro c _
    by_cases hc : c.addr = a
    · simp [hc, ha]
    · simp [hc]
  · rw [if_neg ha]
    unfold AddressMap.Delete
    apply List.filter_congr
    intro c _
    by_cases hc : c.addr = a
    · simp [hc, ha]
    · simp [hc]

theorem forget_fold (L : List Address) (keys : List Address) (m : AddressMap) :
    keys.foldl (fun m addr => if addr ∈ L then m else AddressMap.Delete m addr) m =
      m.filter (fun c => keys.all (fun a => decide (c.addr ∈ L) || !decide (c.addr = a))) := by
  induction keys generalizing m with
  | nil => simp
  | cons k ks ih =>
    rw [List.foldl_cons, ih, forget_step, List.filter_filter]
    apply List.filter_congr
    intro c _
    simp only [List.all_cons]
    rw [Bool.and_comm]

theorem forget_filter (L : List Address) (m : AddressMap) :
    (AddressMap.Keys m).foldl (fun m addr => if addr ∈ L then m else AddressMap.Delete m addr) m =
      m.filter (fun c => decide (c.addr ∈ L)) := by
  rw [forget_fold]
  apply List.filter_congr
  intro c hc
  by_cases hL : c.addr ∈ L
  · simp [hL]
  · simp only [hL, decide_False, Bool.false_or]
    rw [List.all_eq_false.2]
    refine ⟨c.addr, ?_, by simp⟩
    exact List.mem_map.2 ⟨c, hc, rfl⟩

theorem forgetOldConns_eq (pb : pickerBuilder) (L : List Address) :
    forgetOldConns pb L =
      updatePinnedServerLocked
        { pb with connInfo := pb.connInfo.filter (fun c => decide (c.addr ∈ L)) } := by
  unfold forgetOldConns
  simp only [forget_filter]

theorem Get_filter (L : List Address) (m : AddressMap) (a : Address) :
    AddressMap.Get (m.filter (fun c => decide (c.addr ∈ L))) a =
      if a ∈ L then AddressMap.Get m a else none := by
  induction m with
  | nil => simp [AddressMap.Get]
  | cons d ds ih =>
    by_cases hd : d.addr ∈ L
    · rw [List.filter_cons_of_pos (by simpa using hd), Get_cons, Get_cons, ih]
      by_cases hda : d.addr = a
      · subst hda
        rw [if_pos rfl, if_pos rfl, if_pos hd]
      · rw [if_neg hda, if_neg hda]
    · rw [List.filter_cons_of_neg (by simpa using hd), ih, Get_cons]
      by_cases hda : d.addr = a
      · subst hda
        rw [if_neg hd, if_neg hd]
      · rw [if_neg hda]

theorem forgetOldConns_connInfo (pb : pickerBuilder) (L : List Address) :
    (forgetOldConns pb L).connInfo = pb.connInfo.filter (fun c => decide (c.addr ∈ L)) := by
  rw [forgetOldConns_eq, updatePinned_connInfo]

/-- C9. After `forgetOldConns L` the inventory is the old inventory restricted
to the records whose address occurs in `L`, each record as it was and in the
old order: an address is tracked afterwards exactly when it was tracked and
occurs in `L`, with the same record, and nothing is tracked that was not;
`failureClock` and `maxIndex` are unchanged. -/
theorem C9_forgetOldConns (pb : pickerBuilder) (L : List Address) :
    (forgetOldConns pb L).connInfo = pb.connInfo.filter (fun c => decide (c.addr ∈ L)) ∧
    (∀ a, AddressMap.Get (forgetOldConns pb L).connInfo a =
      if a ∈ L then AddressMap.Get pb.connInfo a else none) ∧
    (forgetOldConns pb L).failureClock = pb.failureClock ∧
    (forgetOldConns pb L).maxIndex = pb.maxIndex := by
  rw [forgetOldConns_eq]
  simp only [updatePinned_connInfo, updatePinned_failureClock, updatePinned_maxIndex]
  exact ⟨trivial, fun a => Get_filter L pb.connInfo a, trivial, trivial⟩

/-! ## The shuffle permutes -/

theorem swap_perm {α : Type} [DecidableEq α] (l : List α) (a b : Nat) :
    (swap l a b).Perm l := by
  unfold swap
  cases ha : l[a]? with
  | none => exact List.Perm.refl _
  | some x =>
    cases hb : l[b]? with
    | none => exact List.Perm.refl _
    | some y =>
      simp only
      obtain ⟨hal, hax⟩ := List.getElem?_eq_some.1 ha
      obtain ⟨hbl, hby⟩ := List.getElem?_eq_some.1 hb
      rw [List.perm_iff_count]
      intro c
      have hbl2 : b < (l.set a y).length := by rw [List.length_set]; exact hbl
      rw [List.count_set x c (l.set a y) b hbl2, List.count_set y c l a hal]
      have hby2 : (l.set a y)[b] = y := by
        rw [List.getElem_set]
        split
        · rfl
        · exact hby
      rw [hby2, hax]
      have hx : (if (x == c) = true then 1 else 0) ≤ List.count c l := by
        split
        · rename_i h
          have hxc : x = c := by simpa using h
          have : c ∈ l := by rw [← hxc, ← hax]; exact List.getElem_mem _
          exact List.count_pos_iff.2 this
        · exact Nat.zero_le _
      omega

theorem shuffleLoop_perm {α : Type} [DecidableEq α] (draw : Nat → Nat) (n : Nat) (l : List α) :
    (shuffleLoop draw n l).Perm l := by
  induction n generalizing l with
  | zero => exact List.Perm.refl _
  | succ i ih =>
    unfold shuffleLoop
    exact (ih _).trans (swap_perm l _ _)

theorem Shuffle_perm {α : Type} [DecidableEq α] (draw : Nat → Nat) (n : Nat) (l : List α) :
    (Shuffle draw n l).Perm l :=
  shuffleLoop_perm draw (n - 1) l

/-! ## The tracked addresses stay distinct -/

theorem Set_of_Get_none (m : AddressMap) (a : Address) (v : connInfo)
    (h : AddressMap.Get m a = none) : AddressMap.Set m a v = m ++ [v] := by
  induction m with
  | nil => rfl
  | cons d ds ih =>
    rw [Get_cons] at h
    unfold AddressMap.Set
    by_cases hd : d.addr = a
    · rw [if_pos hd] at h
      exact absurd h (by simp)
    · rw [if_neg hd] at h
      rw [if_neg hd, ih h]
      rfl

theorem Get_isSome_iff (m : AddressMap) (a : Address) :
    (∃ c, AddressMap.Get m a = some c) ↔ a ∈ AddressMap.Keys m := by
  constructor
  · rintro ⟨c, hc⟩
    obtain ⟨hm, ha⟩ := Get_some_mem m a c hc
    exact List.mem_map.2 ⟨c, hm, ha⟩
  · intro h
    cases hg : AddressMap.Get m a with
    | some c => exact ⟨c, rfl⟩
    | none =>
      obtain ⟨c, hc, hca⟩ := List.mem_map.1 h
      exact absurd hca ((Get_eq_none_iff m a).1 hg c hc)

theorem Get_of_mem_nodup (m : AddressMap) (c : connInfo)
    (hn : (AddressMap.Keys m).Nodup) (hc : c ∈ m) : AddressMap.Get m c.addr = some c := by
  induction m with
  | nil => exact absurd hc (List.not_mem_nil _)
  | cons d ds ih =>
    rw [Get_cons]
    have hn2 : d.addr ∉ AddressMap.Keys ds ∧ (AddressMap.Keys ds).Nodup := by
      simpa [AddressMap.Keys] using hn
    rcases List.mem_cons.1 hc with rfl | hc2
    · rw [if_pos rfl]
    · have hne : ¬ d.addr = c.addr := by
        intro he
        exact hn2.1 (he ▸ List.mem_map.2 ⟨c, hc2, rfl⟩)
      rw [if_neg hne]
      exact ih hn2.2 hc2

theorem buildTrack_some (st : pickerBuilder × List Address) (sc : SubConn × Address)
    (c : connInfo) (h : AddressMap.Get st.1.connInfo sc.2 = some c) :
    buildTrack st sc =
      ({ st.1 with
          connInfo := AddressMap.Modify st.1.connInfo sc.2 (fun v => { v with ready := true }) },
        sc.2 :: st.2) := by
  simp only [buildTrack, h]

theorem buildTrack_none (st : pickerBuilder × List Address) (sc : SubConn × Address)
    (h : AddressMap.Get st.1.connInfo sc.2 = none) :
    buildTrack st sc =
      ({ st.1 with
          connInfo := st.1.connInfo ++
            [{ conn := sc.1, addr := sc.2, index := st.1.maxIndex, failedAt := 0, ready := true }]
          maxIndex := (st.1.maxIndex + 1) % 2 ^ 16 },
        sc.2 :: st.2) := by
  simp only [buildTrack, h, Set_of_Get_none _ _ _ h]

theorem buildTrack_keys_nodup (st : pickerBuilder × List Address) (sc : SubConn × Address)
    (h : (AddressMap.Keys st.1.connInfo).Nodup) :
    (AddressMap.Keys (buildTrack st sc).1.connInfo).Nodup := by
  cases hg : AddressMap.Get st.1.connInfo sc.2 with
  | some c =>
    rw [buildTrack_some st sc c hg]
    show (List.map (fun c => c.addr) (AddressMap.Modify st.1.connInfo sc.2 _)).Nodup
    rw [Modify_map (fun c => c.addr)]
    · exact h
    · intro _
      rfl
  | none =>
    rw [buildTrack_none st sc hg]
    show (List.map (fun c => c.addr) (st.1.connInfo ++ _)).Nodup
    rw [List.map_append, List.nodup_append]
    refine ⟨h, List.nodup_singleton _, ?_⟩
    intro a ha hb
    have hab : a = sc.2 := by simpa using hb
    obtain ⟨c, hc, hca⟩ := List.mem_map.1 ha
    exact (Get_eq_none_iff _ _).1 hg c hc (hca.trans hab)

theorem foldl_buildTrack_keys_nodup (r : List (SubConn × Address))
    (st : pickerBuilder × List Address) (h : (AddressMap.Keys st.1.connInfo).Nodup) :
    (AddressMap.Keys (r.foldl buildTrack st).1.connInfo).Nodup := by
  induction r generalizing st with
  | nil => exact h
  | cons sc scs ih =>
    rw [List.foldl_cons]
    exact ih _ (buildTrack_keys_nodup st sc h)

theorem foldl_buildUnready_map {β : Type} (g : connInfo → β)
    (hg : ∀ c b, g { c with ready := b } = g c)
    (ready : List Address) (ks : List Address) (m : AddressMap) :
    (ks.foldl (buildUnready ready) m).map g = m.map g := by
  induction ks generalizing m with
  | nil => rfl
  | cons k ks ih =>
    rw [List.foldl_cons, ih]
    unfold buildUnready
    split
    · rfl
    · exact Modify_map g _ (fun c => hg c false) m k

theorem Build_keys_nodup (pb : pickerBuilder) (r : List (SubConn × Address))
    (h : (AddressMap.Keys pb.connInfo).Nodup) :
    (AddressMap.Keys (Build pb r).connInfo).Nodup := by
  unfold Build
  simp only [updatePinned_connInfo]
  unfold AddressMap.Keys
  rw [foldl_buildUnready_map (fun c => c.addr) (fun _ _ => rfl)]
  exact foldl_buildTrack_keys_nodup r (pb, []) h

theorem forgetOldConns_keys_nodup (pb : pickerBuilder) (L : List Address)
    (h : (AddressMap.Keys pb.connInfo).Nodup) :
    (AddressMap.Keys (forgetOldConns pb L).connInfo).Nodup := by
  rw [forgetOldConns_connInfo]
  exact List.Nodup.sublist (List.Sublist.map _ (List.filter_sublist _)) h

theorem witnessError_keys (pb : pickerBuilder) (X : Address) (err : GoError) :
    AddressMap.Keys (witnessError pb X err).connInfo = AddressMap.Keys pb.connInfo := by
  cases hg : AddressMap.Get pb.connInfo X with
  | none => rw [witnessError_untracked pb X err hg]
  | some c =>
    rw [witnessError_tracked pb X err c hg, updatePinned_connInfo]
    show List.map (fun c => c.addr) (AddressMap.Modify pb.connInfo X _) = _
    rw [Modify_map (fun c => c.addr)]
    · rfl
    · intro _
      rfl

theorem enumFrom_reindex_map {β : Type} (g : connInfo → β)
    (hg : ∀ c i, g { c with index := i } = g c) (l : List connInfo) (n : Nat) :
    ((l.enumFrom n).map (fun p => { p.2 with index := p.1 % 2 ^ 16 })).map g = l.map g := by
  induction l generalizing n with
  | nil => rfl
  | cons c cs ih =>
    simp only [List.enumFrom_cons, List.map_cons, hg, ih]

theorem rebalance_connInfo (pb : pickerBuilder) (draw : Nat → Nat) :
    (rebalance pb draw).connInfo =
      ((Shuffle draw pb.connInfo.length pb.connInfo).enum.map
        (fun p => { p.2 with index := p.1 % 2 ^ 16 })) := by
  unfold rebalance
  simp only [updatePinned_connInfo, AddressMap.Values]

theorem rebalance_keys_perm (pb : pickerBuilder) (draw : Nat → Nat) :
    (AddressMap.Keys (rebalance pb draw).connInfo).Perm (AddressMap.Keys pb.connInfo) := by
  rw [rebalance_connInfo]
  unfold AddressMap.Keys List.enum
  rw [enumFrom_reindex_map (fun c => c.addr) (fun _ _ => rfl)]
  exact (Shuffle_perm draw _ _).map _

theorem step_keys_nodup (pb : pickerBuilder) (op : Op)
    (h : (AddressMap.Keys pb.connInfo).Nodup) :
    (AddressMap.Keys (step pb op).connInfo).Nodup := by
  cases op with
  | Build r => exact Build_keys_nodup pb r h
  | forgetOldConns L => exact forgetOldConns_keys_nodup pb L h
  | witnessError X err =>
    show (AddressMap.Keys (witnessError pb X err).connInfo).Nodup
    rw [witnessError_keys]
    exact h
  | rebalance draw => exact (rebalance_keys_perm pb draw).nodup_iff.2 h

theorem run_keys_nodup (ops : List Op) (pb : pickerBuilder)
    (h : (AddressMap.Keys pb.connInfo).Nodup) :
    (AddressMap.Keys (run ops pb).connInfo).Nodup := by
  induction ops generalizing pb with
  | nil => exact h
  | cons op ops ih => exact ih _ (step_keys_nodup pb op h)

/-! ## C3: the published selection agrees with the inventory -/

theorem updatePinned_idem (pb : pickerBuilder) :
    updatePinnedServerLocked (updatePinnedServerLocked pb) = updatePinnedServerLocked pb := by
  apply pickerBuilder_ext
  · exact updatePinned_pinned_congr _ _ (updatePinned_connInfo pb)
  · rw [updatePinned_maxIndex]
  · rw [updatePinned_failureClock]
  · rw [updatePinned_connInfo]

theorem step_fix (pb : pickerBuilder) (op : Op) :
    step pb op = updatePinnedServerLocked (step pb op) ∨ step pb op = pb := by
  cases op with
  | Build r => left; exact (updatePinned_idem _).symm
  | forgetOldConns L => left; exact (updatePinned_idem _).symm
  | witnessError X err =>
    cases hg : AddressMap.Get pb.connInfo X with
    | none => right; exact witnessError_untracked pb X err hg
    | some c =>
      left
      show witnessError pb X err = updatePinnedServerLocked (witnessError pb X err)
      rw [witnessError_tracked pb X err c hg]
      exact (updatePinned_idem _).symm
  | rebalance draw => left; exact (updatePinned_idem _).symm

theorem updatePinned_consistent (pb : pickerBuilder)
    (hn : (AddressMap.Keys pb.connInfo).Nodup) :
    ((updatePinnedServerLocked pb).pinned = none → ∀ c ∈ pb.connInfo, c.ready = false) ∧
    (∀ p, (updatePinnedServerLocked pb).pinned = some p →
      ∃ c, AddressMap.Get pb.connInfo p.addr = some c ∧ c.ready = true ∧ c.conn = p.conn) := by
  constructor
  · intro hp c hc
    cases hr : c.ready with
    | false => rfl
    | true =>
      obtain ⟨w, _, _, hpin, _⟩ := updatePinned_some pb c hc hr
      rw [hpin] at hp
      exact absurd hp (by simp)
  · intro p hp
    by_cases hex : ∃ c ∈ pb.connInfo, c.ready = true
    · obtain ⟨c, hc, hr⟩ := hex
      obtain ⟨w, hw, hwr, hpin, _⟩ := updatePinned_some pb c hc hr
      rw [hpin] at hp
      have hpw : p = { addr := w.addr, conn := w.conn } := (Option.some.inj hp).symm
      subst hpw
      exact ⟨w, Get_of_mem_nodup _ w hn hw, hwr, rfl⟩
    · have hnone := updatePinned_none pb (by
        intro c hc
        cases hr : c.ready with
        | false => rfl
        | true => exact absurd ⟨c, hc, hr⟩ hex)
      rw [hnone] at hp
      exact absurd hp (by simp)

theorem run_consistent (ops : List Op) (pb : pickerBuilder)
    (hn : (AddressMap.Keys pb.connInfo).Nodup)
    (h : (pb.pinned = none → ∀ c ∈ pb.connInfo, c.ready = false) ∧
      (∀ p, pb.pinned = some p →
        ∃ c, AddressMap.Get pb.connInfo p.addr = some c ∧ c.ready = true ∧ c.conn = p.conn)) :
    ((run ops pb).pinned = none → ∀ c ∈ (run ops pb).connInfo, c.ready = false) ∧
      (∀ p, (run ops pb).pinned = some p →
        ∃ c, AddressMap.Get (run ops pb).connInfo p.addr = some c ∧
          c.ready = true ∧ c.conn = p.conn) := by
  induction ops generalizing pb with
  | nil => exact h
  | cons op ops ih =>
    refine ih (step pb op) (step_keys_nodup pb op hn) ?_
    rcases step_fix pb op with hfix | hfix
    · have := updatePinned_consistent (step pb op) (step_keys_nodup pb op hn)
      rw [← hfix] at this
      exact this
    · rw [hfix]
      exact h

/-- C3. After every sequence of `Build`, `forgetOldConns`, `witnessError` and
`rebalance` calls on a fresh `pickerBuilder` (hence after each call of such a
sequence), the published selection is either empty, and then no tracked record
is ready, or it names an address that is tracked, whose record is ready and has
the published handle. -/
theorem C3_published_consistent (ops : List Op) :
    ((run ops newPickerBuilder).pinned = none →
      ∀ c ∈ (run ops newPickerBuilder).connInfo, c.ready = false) ∧
    (∀ p, (run ops newPickerBuilder).pinned = some p →
      ∃ c, AddressMap.Get (run ops newPickerBuilder).connInfo p.addr = some c ∧
        c.ready = true ∧ c.conn = p.conn) := by
  refine run_consistent ops newPickerBuilder (by simp [newPickerBuilder, AddressMap.Keys]) ?_
  constructor
  · intro _ c hc
    exact absurd hc (List.not_mem_nil _)
  · intro p hp
    exact absurd hp (by simp [newPickerBuilder])

/-- C3 after a first `Build` with A and B ready: A is published with handle 11,
and A is tracked, ready and bound to handle 11. -/
theorem C3_published_consistent_witness :
    ∃ c, AddressMap.Get (run opsTwoReady newPickerBuilder).connInfo addrA = some c ∧
      c.ready = true ∧ c.conn = 11 :=
  (C3_published_consistent opsTwoReady).2 { addr := addrA, conn := 11 } (by decide)

/-! ## No record has failed later than the clock shows -/

theorem mem_Modify (f : connInfo → connInfo) (m : AddressMap) (a : Address) (c : connInfo)
    (h : c ∈ AddressMap.Modify m a f) : c ∈ m ∨ ∃ d ∈ m, c = f d := by
  induction m with
  | nil => exact absurd h (List.not_mem_nil _)
  | cons d ds ih =>
    unfold AddressMap.Modify at h
    by_cases hd : d.addr = a
    · rw [if_pos hd] at h
      rcases List.mem_cons.1 h with h1 | h1
      · exact Or.inr ⟨d, List.mem_cons_self _ _, h1⟩
      · exact Or.inl (List.mem_cons_of_mem _ h1)
    · rw [if_neg hd] at h
      rcases List.mem_cons.1 h with h1 | h1
      · exact Or.inl (h1 ▸ List.mem_cons_self _ _)
      · rcases ih h1 with h2 | ⟨e, he, hce⟩
        · exact Or.inl (List.mem_cons_of_mem _ h2)
        · exact Or.inr ⟨e, List.mem_cons_of_mem _ he, hce⟩

theorem foldl_buildTrack_failureClock (r : List (SubConn × Address))
    (st : pickerBuilder × List Address) :
    (r.foldl buildTrack st).1.failureClock = st.1.failureClock := by
  induction r generalizing st with
  | nil => rfl
  | cons sc scs ih =>
    rw [List.foldl_cons, ih]
    cases hg : AddressMap.Get st.1.connInfo sc.2 with
    | some c => rw [buildTrack_some st sc c hg]
    | none => rw [buildTrack_none st sc hg]

theorem Build_failureClock (pb : pickerBuilder) (r : List (SubConn × Address)) :
    (Build pb r).failureClock = pb.failureClock := by
  unfold Build
  simp only [updatePinned_failureClock]
  exact foldl_buildTrack_failureClock r (pb, [])

theorem buildTrack_failedAt (K : Nat) (st : pickerBuilder × List Address)
    (sc : SubConn × Address) (h : ∀ c ∈ st.1.connInfo, c.failedAt ≤ K) :
    ∀ c ∈ (buildTrack st sc).1.connInfo, c.failedAt ≤ K := by
  cases hg : AddressMap.Get st.1.connInfo sc.2 with
  | some c0 =>
    rw [buildTrack_some st sc c0 hg]
    intro c hc
    rcases mem_Modify _ _ _ _ hc with h1 | ⟨d, hd, hcd⟩
    · exact h c h1
    · rw [hcd]
      exact h d hd
  | none =>
    rw [buildTrack_none st sc hg]
    intro c hc
    rcases List.mem_append.1 hc with h1 | h1
    · exact h c h1
    · have hc2 := List.mem_singleton.1 h1
      rw [hc2]
      exact Nat.zero_le _

theorem foldl_buildTrack_failedAt (K : Nat) (r : List (SubConn × Address))
    (st : pickerBuilder × List Address) (h : ∀ c ∈ st.1.connInfo, c.failedAt ≤ K) :
    ∀ c ∈ (r.foldl buildTrack st).1.connInfo, c.failedAt ≤ K := by
  induction r generalizing st with
  | nil => exact h
  | cons sc scs ih =>
    rw [List.foldl_cons]
    exact ih _ (buildTrack_failedAt K st sc h)

theorem forall_of_map_eq {β : Type} (g : connInfo → β) (P : β → Prop) (l m : List connInfo)
    (hlm : l.map g = m.map g) (h : ∀ c ∈ m, P (g c)) : ∀ c ∈ l, P (g c) := by
  intro c hc
  have h1 : g c ∈ l.map g := List.mem_map_of_mem g hc
  rw [hlm] at h1
  obtain ⟨d, hd, hdc⟩ := List.mem_map.1 h1
  rw [← hdc]
  exact h d hd

theorem Build_failedAt (K : Nat) (pb : pickerBuilder) (r : List (SubConn × Address))
    (h : ∀ c ∈ pb.connInfo, c.failedAt ≤ K) :
    ∀ c ∈ (Build pb r).connInfo, c.failedAt ≤ K := by
  unfold Build
  simp only [updatePinned_connInfo]
  refine forall_of_map_eq (fun c => c.failedAt) (fun x => x ≤ K) _ _
    (foldl_buildUnready_map (fun c => c.failedAt) (fun _ _ => rfl) _ _ _) ?_
  exact foldl_buildTrack_failedAt K r (pb, []) h

theorem rebalance_failureClock (pb : pickerBuilder) (draw : Nat → Nat) :
    (rebalance pb draw).failureClock = pb.failureClock := by
  unfold rebalance
  simp only [updatePinned_failureClock]

theorem rebalance_failedAt (K : Nat) (pb : pickerBuilder) (draw : Nat → Nat)
    (h : ∀ c ∈ pb.connInfo, c.failedAt ≤ K) :
    ∀ c ∈ (rebalance pb draw).connInfo, c.failedAt ≤ K := by
  rw [rebalance_connInfo]
  unfold List.enum
  refine forall_of_map_eq (fun c => c.failedAt) (fun x => x ≤ K) _ _
    (enumFrom_reindex_map (fun c => c.failedAt) (fun _ _ => rfl) _ 0) ?_
  intro c hc
  exact h c ((Shuffle_perm draw _ _).subset hc)

theorem forgetOldConns_failureClock (pb : pickerBuilder) (L : List Address) :
    (forgetOldConns pb L).failureClock = pb.failureClock := by
  rw [forgetOldConns_eq, updatePinned_failureClock]

/-- One call keeps every `failedAt` at or below the clock, and moves the clock
by at most one, and only when it is a `witnessError`. -/
theorem step_failedAt (pb : pickerBuilder) (op : Op) (n : Nat)
    (hclock : pb.failureClock ≤ n) (hn : n + (if op.isWitness then 1 else 0) < 2 ^ 64)
    (h : ∀ c ∈ pb.connInfo, c.failedAt ≤ pb.failureClock) :
    (step pb op).failureClock ≤ n + (if op.isWitness then 1 else 0) ∧
    ∀ c ∈ (step pb op).connInfo, c.failedAt ≤ (step pb op).failureClock := by
  cases op with
  | Build r =>
    simp only [step]
    rw [Build_failureClock]
    exact ⟨Nat.le_trans hclock (Nat.le_add_right _ _), Build_failedAt _ pb r h⟩
  | forgetOldConns L =>
    simp only [step]
    rw [forgetOldConns_failureClock, forgetOldConns_connInfo]
    refine ⟨Nat.le_trans hclock (Nat.le_add_right _ _), ?_⟩
    intro c hc
    exact h c (List.mem_of_mem_filter hc)
  | rebalance draw =>
    simp only [step]
    rw [rebalance_failureClock]
    exact ⟨Nat.le_trans hclock (Nat.le_add_right _ _), rebalance_failedAt _ pb draw h⟩
  | witnessError X err =>
    simp only [step]
    have hn1 : n + 1 < 2 ^ 64 := by simpa [Op.isWitness] using hn
    cases hg : AddressMap.Get pb.connInfo X with
    | none =>
      rw [witnessError_untracked pb X err hg]
      exact ⟨Nat.le_trans hclock (Nat.le_add_right _ _), h⟩
    | some c0 =>
      rw [witnessError_tracked pb X err c0 hg, updatePinned_failureClock, updatePinned_connInfo]
      have hmod : (pb.failureClock + 1) % 2 ^ 64 = pb.failureClock + 1 :=
        Nat.mod_eq_of_lt (by omega)
      simp only [hmod]
      refine ⟨by simp only [Op.isWitness, if_true]; omega, ?_⟩
      intro c hc
      rcases mem_Modify _ _ _ _ hc with h1 | ⟨d, _, hcd⟩
      · exact Nat.le_trans (h c h1) (Nat.le_add_right _ _)
      · rw [hcd]

theorem witnessCount_cons (op : Op) (ops : List Op) :
    witnessCount (op :: ops) = (if op.isWitness then 1 else 0) + witnessCount ops := by
  unfold witnessCount
  cases h : op.isWitness
  · rw [List.filter_cons_of_neg (by simp [h])]
    simp
  · rw [List.filter_cons_of_pos h]
    simp [Nat.add_comm]

theorem run_failedAt (ops : List Op) (pb : pickerBuilder) (n : Nat)
    (hclock : pb.failureClock ≤ n) (hn : n + witnessCount ops < 2 ^ 64)
    (h : ∀ c ∈ pb.connInfo, c.failedAt ≤ pb.failureClock) :
    (run ops pb).failureClock ≤ n + witnessCount ops ∧
    ∀ c ∈ (run ops pb).connInfo, c.failedAt ≤ (run ops pb).failureClock := by
  induction ops generalizing pb n with
  | nil => exact ⟨by simpa [witnessCount, run] using hclock, h⟩
  | cons op ops ih =>
    rw [witnessCount_cons] at hn ⊢
    obtain ⟨h1, h2⟩ := step_failedAt pb op n hclock (by omega) h
    have := ih (step pb op) (n + (if op.isWitness then 1 else 0)) h1 (by omega) h2
    rw [Nat.add_assoc] at this
    exact this

/-! ## C2: failover -/

theorem failover_step (pb : pickerBuilder) (X : Address) (err : GoError)
    (hn : (AddressMap.Keys pb.connInfo).Nodup)
    (hb : ∀ c ∈ pb.connInfo, c.failedAt ≤ pb.failureClock)
    (hclk : pb.failureClock + 1 < 2 ^ 64)
    (hX : X ∈ AddressMap.Keys pb.connInfo)
    (hother : ∃ c ∈ pb.connInfo, c.addr ≠ X ∧ c.ready = true) :
    ∃ q, (witnessError pb X err).pinned = some q ∧ q.addr ≠ X := by
  obtain ⟨cx, hcx⟩ := (Get_isSome_iff pb.connInfo X).2 hX
  obtain ⟨y, hy, hyX, hyr⟩ := hother
  have hmod : (pb.failureClock + 1) % 2 ^ 64 = pb.failureClock + 1 := Nat.mod_eq_of_lt hclk
  rw [witnessError_tracked pb X err cx hcx, hmod]
  have hkeys : AddressMap.Keys (AddressMap.Modify pb.connInfo X
      (fun v => { v with failedAt := pb.failureClock + 1 })) = AddressMap.Keys pb.connInfo := by
    unfold AddressMap.Keys
    rw [Modify_map (fun c => c.addr)]
    intro _
    rfl
  have hgetX : AddressMap.Get (AddressMap.Modify pb.connInfo X
      (fun v => { v with failedAt := pb.failureClock + 1 })) X =
      some { cx with failedAt := pb.failureClock + 1 } := by
    refine Get_Modify_self _ ?_ _ _ _ hcx
    intro _
    rfl
  have hgety : AddressMap.Get (AddressMap.Modify pb.connInfo X
      (fun v => { v with failedAt := pb.failureClock + 1 })) y.addr = some y := by
    rw [Get_Modify_other _ _ _ _ _ hyX]
    · exact Get_of_mem_nodup _ y hn hy
    · intro _
      rfl
  obtain ⟨w, hw, _, hpin, hmin⟩ := updatePinned_some
    { pb with
      failureClock := pb.failureClock + 1
      connInfo := AddressMap.Modify pb.connInfo X
        (fun v => { v with failedAt := pb.failureClock + 1 }) }
    y (Get_some_mem _ _ _ hgety).1 hyr
  refine ⟨_, hpin, ?_⟩
  intro hwX
  have hwX2 : w.addr = X := hwX
  have hgetw := Get_of_mem_nodup _ w (by rw [hkeys]; exact hn) hw
  rw [hwX2, hgetX] at hgetw
  have hwf : w.failedAt = pb.failureClock + 1 := by
    rw [← Option.some.inj hgetw]
  have hlt := (less_eq_false_iff y w).1 (hmin y (Get_some_mem _ _ _ hgety).1 hyr)
  have hyb := hb y hy
  omega

/-- C2. In a state reached from a fresh `pickerBuilder` by calls that report
fewer than `2^64 - 1` failures (so that the `uint64` failure clock has not
wrapped), if `p` is the published selection and some other tracked record is
ready, then after `witnessError` on the address of `p` the published selection
is not empty and names another address. -/
theorem C2_failover (ops : List Op) (p : pinnedConn) (err : GoError)
    (hw : witnessCount ops + 1 < 2 ^ 64)
    (hp : (run ops newPickerBuilder).pinned = some p)
    (hother : ∃ c ∈ (run ops newPickerBuilder).connInfo, c.addr ≠ p.addr ∧ c.ready = true) :
    ∃ q, (witnessError (run ops newPickerBuilder) p.addr err).pinned = some q ∧
      q.addr ≠ p.addr := by
  have hn := run_keys_nodup ops newPickerBuilder (by simp [newPickerBuilder, AddressMap.Keys])
  have hcons := run_consistent ops newPickerBuilder
    (by simp [newPickerBuilder, AddressMap.Keys])
    ⟨fun _ c hc => absurd hc (List.not_mem_nil _),
      fun q hq => absurd hq (by simp [newPickerBuilder])⟩
  have hinv := run_failedAt ops newPickerBuilder 0 (Nat.le_refl _) (by omega)
    (fun c hc => absurd hc (List.not_mem_nil _))
  obtain ⟨cx, hcx, _, _⟩ := hcons.2 p hp
  refine failover_step _ p.addr err hn hinv.2 ?_ ?_ hother
  · have := hinv.1
    omega
  · exact (Get_isSome_iff _ _).1 ⟨cx, hcx⟩

/-- C2 after a first `Build` with A and B ready: A is published, and a failure
of A moves the selection to another address. -/
theorem C2_failover_witness :
    ∃ q, (witnessError (run opsTwoReady newPickerBuilder) addrA errExhausted).pinned = some q ∧
      q.addr ≠ addrA :=
  C2_failover opsTwoReady { addr := addrA, conn := 11 } errExhausted (by decide) (by decide)
    ⟨{ addr := addrB, conn := 12, index := 1, failedAt := 0, ready := true },
      by decide, by decide, rfl⟩

/-! ## C4: indices after 2^16 insertions -/

theorem run_append (xs ys : List Op) (pb : pickerBuilder) :
    run (xs ++ ys) pb = run ys (run xs pb) := by
  unfold run
  rw [List.foldl_append]

theorem churn_round (k j : Nat) :
    run churnRound (churnState k j) = churnState ((k + 1) % 2 ^ 16) k := by
  have hAB : addrA ≠ addrB := by decide
  have hBA : addrB ≠ addrA := by decide
  simp [run, churnRound, churnState, step, forgetOldConns, Build, buildTrack, buildUnready,
    updatePinnedServerLocked, sortSlice, insertSorted, less, AddressMap.Get, AddressMap.Set,
    AddressMap.Modify, AddressMap.Delete, AddressMap.Keys, AddressMap.Values, hAB, hBA]

theorem churn_iter (n k j : Nat) (hk : k < 2 ^ 16) :
    run (List.replicate (n + 1) churnRound).flatten (churnState k j) =
      churnState ((k + n + 1) % 2 ^ 16) ((k + n) % 2 ^ 16) := by
  induction n generalizing k j with
  | zero =>
    have h1 : (List.replicate (0 + 1) churnRound).flatten = churnRound := by
      simp [List.replicate]
    rw [h1, churn_round]
    congr 1
    omega
  | succ n ih =>
    rw [List.replicate_succ, List.flatten_cons, run_append, churn_round,
      ih ((k + 1) % 2 ^ 16) k (Nat.mod_lt _ (by decide))]
    congr 1 <;> omega

theorem run_cons (op : Op) (ops : List Op) (pb : pickerBuilder) :
    run (op :: ops) pb = run ops (step pb op) := rfl

/-- C4 at `churnOps`: after A and B were tracked and B was dropped and tracked
anew 65535 times, the 16-bit counter `maxIndex` has wrapped, and the records of
A and B, both tracked and ready, have the same index 0. -/
theorem C4_index_collision :
    (run churnOps newPickerBuilder).connInfo =
      [ { addr := addrA, conn := 11, index := 0, failedAt := 0, ready := true },
        { addr := addrB, conn := 12, index := 0, failedAt := 0, ready := true } ] ∧
    ∃ c ∈ (run churnOps newPickerBuilder).connInfo,
      ∃ d ∈ (run churnOps newPickerBuilder).connInfo, c.addr ≠ d.addr ∧ c.index = d.index := by
  have h0 : step newPickerBuilder (Op.Build [(11, addrA), (12, addrB)]) = churnState 2 1 := by
    decide
  have h1 : run churnOps newPickerBuilder = churnState 1 0 := by
    unfold churnOps
    rw [run_cons, h0, show (65535 : Nat) = 65534 + 1 from rfl, churn_iter 65534 2 1 (by decide)]
    congr 1
  rw [h1]
  refine ⟨rfl, _, List.mem_cons_self _ _, _, List.mem_cons_of_mem _ (List.mem_cons_self _ _), ?_, rfl⟩
  decide

/-! ## Indices are distinct until `maxIndex` wraps -/

theorem buildTrack_index (n : Nat) (st : pickerBuilder × List Address) (sc : SubConn × Address)
    (hmax : st.1.maxIndex ≤ n) (hn : n + 1 < 2 ^ 16)
    (hlt : ∀ c ∈ st.1.connInfo, c.index < st.1.maxIndex)
    (hnd : (st.1.connInfo.map (fun c => c.index)).Nodup) :
    (buildTrack st sc).1.maxIndex ≤ n + 1 ∧
    (∀ c ∈ (buildTrack st sc).1.connInfo, c.index < (buildTrack st sc).1.maxIndex) ∧
    ((buildTrack st sc).1.connInfo.map (fun c => c.index)).Nodup := by
  cases hg : AddressMap.Get st.1.connInfo sc.2 with
  | some c0 =>
    rw [buildTrack_some st sc c0 hg]
    have hmap : (AddressMap.Modify st.1.connInfo sc.2 (fun v => { v with ready := true })).map
        (fun c => c.index) = st.1.connInfo.map (fun c => c.index) := by
      rw [Modify_map (fun c => c.index)]
      intro _
      rfl
    refine ⟨Nat.le_trans hmax (Nat.le_add_right _ _), ?_, ?_⟩
    · exact forall_of_map_eq (fun c => c.index) (fun x => x < st.1.maxIndex) _ _ hmap hlt
    · show ((AddressMap.Modify st.1.connInfo sc.2 _).map (fun c => c.index)).Nodup
      rw [hmap]
      exact hnd
  | none =>
    rw [buildTrack_none st sc hg]
    have hmod : (st.1.maxIndex + 1) % 2 ^ 16 = st.1.maxIndex + 1 :=
      Nat.mod_eq_of_lt (by omega)
    simp only [hmod]
    refine ⟨by omega, ?_, ?_⟩
    · intro c hc
      rcases List.mem_append.1 hc with h1 | h1
      · exact Nat.lt_succ_of_lt (hlt c h1)
      · rw [List.mem_singleton.1 h1]
        exact Nat.lt_succ_self _
    · rw [List.map_append, List.nodup_append]
      refine ⟨hnd, List.nodup_singleton _, ?_⟩
      intro i hi hi2
      obtain ⟨c, hc, hci⟩ := List.mem_map.1 hi
      have h2 : i = st.1.maxIndex := by simpa using hi2
      have := hlt c hc
      omega

theorem foldl_buildTrack_index (r : List (SubConn × Address)) (n : Nat)
    (st : pickerBuilder × List Address)
    (hmax : st.1.maxIndex ≤ n) (hn : n + r.length < 2 ^ 16)
    (hlt : ∀ c ∈ st.1.connInfo, c.index < st.1.maxIndex)
    (hnd : (st.1.connInfo.map (fun c => c.index)).Nodup) :
    (r.foldl buildTrack st).1.maxIndex ≤ n + r.length ∧
    (∀ c ∈ (r.foldl buildTrack st).1.connInfo, c.index < (r.foldl buildTrack st).1.maxIndex) ∧
    ((r.foldl buildTrack st).1.connInfo.map (fun c => c.index)).Nodup := by
  induction r generalizing st n with
  | nil => exact ⟨hmax, hlt, hnd⟩
  | cons sc scs ih =>
    rw [List.length_cons] at hn ⊢
    rw [List.foldl_cons]
    obtain ⟨h1, h2, h3⟩ := buildTrack_index n st sc hmax (by omega) hlt hnd
    have := ih (n + 1) (buildTrack st sc) h1 (by omega) h2 h3
    rw [show n + 1 + scs.length = n + (scs.length + 1) by omega] at this
    exact this

theorem Build_index (pb : pickerBuilder) (r : List (SubConn × Address)) (n : Nat)
    (hmax : pb.maxIndex ≤ n) (hn : n + r.length < 2 ^ 16)
    (hlt : ∀ c ∈ pb.connInfo, c.index < pb.maxIndex)
    (hnd : (pb.connInfo.map (fun c => c.index)).Nodup) :
    (Build pb r).maxIndex ≤ n + r.length ∧
    (∀ c ∈ (Build pb r).connInfo, c.index < (Build pb r).maxIndex) ∧
    ((Build pb r).connInfo.map (fun c => c.index)).Nodup := by
  obtain ⟨h1, h2, h3⟩ := foldl_buildTrack_index r n (pb, []) hmax hn hlt hnd
  have hmap := foldl_buildUnready_map (fun c => c.index) (fun _ _ => rfl)
    (r.foldl buildTrack (pb, [])).2
    (AddressMap.Keys (r.foldl buildTrack (pb, [])).1.connInfo)
    (r.foldl buildTrack (pb, [])).1.connInfo
  unfold Build
  simp only [updatePinned_connInfo, updatePinned_maxIndex]
  refine ⟨h1, ?_, ?_⟩
  · exact forall_of_map_eq (fun c => c.index)
      (fun x => x < (r.foldl buildTrack (pb, [])).1.maxIndex) _ _ hmap h2
  · rw [hmap]
    exact h3

theorem enumFrom_reindex_index (l : List connInfo) (n : Nat) :
    ((l.enumFrom n).map (fun p => { p.2 with index := p.1 % 2 ^ 16 })).map (fun c => c.index) =
      (List.range' n l.length).map (fun i => i % 2 ^ 16) := by
  induction l generalizing n with
  | nil => rfl
  | cons c cs ih =>
    simp only [List.enumFrom_cons, List.map_cons, List.length_cons, List.range'_succ, ih]

theorem rebalance_index_eq (pb : pickerBuilder) (draw : Nat → Nat) :
    (rebalance pb draw).connInfo.map (fun c => c.index) =
      (List.range pb.connInfo.length).map (fun i => i % 2 ^ 16) := by
  rw [rebalance_connInfo]
  unfold List.enum
  rw [enumFrom_reindex_index, (Shuffle_perm draw _ _).length_eq, List.range_eq_range']

theorem rebalance_maxIndex (pb : pickerBuilder) (draw : Nat → Nat) :
    (rebalance pb draw).maxIndex = pb.maxIndex := by
  unfold rebalance
  simp only [updatePinned_maxIndex]

theorem rebalance_length (pb : pickerBuilder) (draw : Nat → Nat) :
    (rebalance pb draw).connInfo.length = pb.connInfo.length := by
  have h := congrArg List.length (rebalance_index_eq pb draw)
  simpa using h

theorem length_le_of_index (m : List connInfo) (k : Nat)
    (hlt : ∀ c ∈ m, c.index < k) (hnd : (m.map (fun c => c.index)).Nodup) : m.length ≤ k := by
  have hsub : (m.map (fun c => c.index)) ⊆ List.range k := by
    intro i hi
    obtain ⟨c, hc, hci⟩ := List.mem_map.1 hi
    rw [← hci]
    exact List.mem_range.2 (hlt c hc)
  have := (List.subperm_of_subset hnd hsub).length_le
  simpa using this

theorem rebalance_index (pb : pickerBuilder) (draw : Nat → Nat)
    (hmax : pb.maxIndex < 2 ^ 16)
    (hlt : ∀ c ∈ pb.connInfo, c.index < pb.maxIndex)
    (hnd : (pb.connInfo.map (fun c => c.index)).Nodup) :
    (∀ c ∈ (rebalance pb draw).connInfo, c.index < (rebalance pb draw).maxIndex) ∧
    ((rebalance pb draw).connInfo.map (fun c => c.index)).Nodup := by
  have hlen := length_le_of_index pb.connInfo pb.maxIndex hlt hnd
  have hrange : (List.range pb.connInfo.length).map (fun i => i % 2 ^ 16) =
      List.range pb.connInfo.length := by
    conv_rhs => rw [← List.map_id (List.range pb.connInfo.length)]
    apply List.map_congr_left
    intro i hi
    have := List.mem_range.1 hi
    exact Nat.mod_eq_of_lt (by omega)
  have hidx := rebalance_index_eq pb draw
  rw [hrange] at hidx
  constructor
  · intro c hc
    have : c.index ∈ List.range pb.connInfo.length := by
      rw [← hidx]
      exact List.mem_map_of_mem (fun c => c.index) hc
    rw [rebalance_maxIndex]
    have := List.mem_range.1 this
    omega
  · rw [hidx]
    exact List.nodup_range _

theorem witnessError_index (pb : pickerBuilder) (X : Address) (err : GoError) :
    (witnessError pb X err).maxIndex = pb.maxIndex ∧
    (witnessError pb X err).connInfo.map (fun c => c.index) =
      pb.connInfo.map (fun c => c.index) := by
  cases hg : AddressMap.Get pb.connInfo X with
  | none => rw [witnessError_untracked pb X err hg]; exact ⟨rfl, rfl⟩
  | some c0 =>
    rw [witnessError_tracked pb X err c0 hg, updatePinned_maxIndex, updatePinned_connInfo]
    refine ⟨rfl, ?_⟩
    show (AddressMap.Modify pb.connInfo X _).map (fun c => c.index) = _
    rw [Modify_map (fun c => c.index)]
    intro _
    rfl

theorem run_index (ops : List Op) (pb : pickerBuilder) (n : Nat)
    (hmax : pb.maxIndex ≤ n) (hn : n + buildCount ops < 2 ^ 16)
    (hlt : ∀ c ∈ pb.connInfo, c.index < pb.maxIndex)
    (hnd : (pb.connInfo.map (fun c => c.index)).Nodup) :
    (run ops pb).maxIndex ≤ n + buildCount ops ∧
    (∀ c ∈ (run ops pb).connInfo, c.index < (run ops pb).maxIndex) ∧
    ((run ops pb).connInfo.map (fun c => c.index)).Nodup := by
  induction ops generalizing pb n with
  | nil => exact ⟨hmax, hlt, hnd⟩
  | cons op ops ih =>
    rw [run_cons]
    cases op with
    | Build r =>
      simp only [buildCount] at hn ⊢
      obtain ⟨h1, h2, h3⟩ := Build_index pb r n hmax (by omega) hlt hnd
      have := ih (Build pb r) (n + r.length) h1 (by omega) h2 h3
      rw [Nat.add_assoc] at this
      exact this
    | forgetOldConns L =>
      simp only [buildCount] at hn ⊢
      refine ih (forgetOldConns pb L) n ?_ hn ?_ ?_
      · rw [forgetOldConns_eq, updatePinned_maxIndex]
        exact hmax
      · rw [forgetOldConns_connInfo, forgetOldConns_eq, updatePinned_maxIndex]
        intro c hc
        exact hlt c (List.mem_of_mem_filter hc)
      · rw [forgetOldConns_connInfo]
        exact List.Nodup.sublist (List.Sublist.map _ (List.filter_sublist _)) hnd
    | witnessError X err =>
      simp only [buildCount] at hn ⊢
      obtain ⟨h1, h2⟩ := witnessError_index pb X err
      refine ih (witnessError pb X err) n ?_ hn ?_ ?_
      · rw [h1]
        exact hmax
      · rw [h1]
        exact forall_of_map_eq (fun c => c.index) (fun x => x < pb.maxIndex) _ _ h2 hlt
      · rw [h2]
        exact hnd
    | rebalance draw =>
      simp only [buildCount] at hn ⊢
      obtain ⟨h1, h2⟩ := rebalance_index pb draw (by omega) hlt hnd
      refine ih (rebalance pb draw) n ?_ hn h1 h2
      rw [rebalance_maxIndex]
      exact hmax

/-- As long as the ready snapshots handed to `Build` have fewer than `2^16`
entries in all, the tracked records have pairwise distinct indices, all below
`maxIndex`. -/
theorem index_unique_before_wrap (ops : List Op) (h : buildCount ops < 2 ^ 16) :
    (∀ c ∈ (run ops newPickerBuilder).connInfo, c.index < (run ops newPickerBuilder).maxIndex) ∧
    ((run ops newPickerBuilder).connInfo.map (fun c => c.index)).Nodup := by
  have := run_index ops newPickerBuilder 0 (Nat.le_refl _) (by omega)
    (fun c hc => absurd hc (List.not_mem_nil _)) (by simp [newPickerBuilder])
  exact this.2

/-! ## The ranking does not depend on the enumeration order -/

/-- When the tracked records have pairwise distinct indices, the published
selection is the same for every order in which `Values()` may enumerate the
inventory. -/
theorem updatePinned_perm (pb qb : pickerBuilder) (hperm : pb.connInfo.Perm qb.connInfo)
    (hnd : (pb.connInfo.map (fun c => c.index)).Nodup) :
    (updatePinnedServerLocked pb).pinned = (updatePinnedServerLocked qb).pinned := by
  by_cases hex : ∃ c ∈ pb.connInfo, c.ready = true
  · obtain ⟨c, hc, hr⟩ := hex
    obtain ⟨w, hw, hwr, hpin, hmin⟩ := updatePinned_some pb c hc hr
    obtain ⟨v, hv, hvr, hpin2, hmin2⟩ := updatePinned_some qb c (hperm.subset hc) hr
    have h1 := (less_eq_false_iff v w).1 (hmin v (hperm.symm.subset hv) hvr)
    have h2 := (less_eq_false_iff w v).1 (hmin2 w (hperm.subset hw) hwr)
    have hidx : w.index = v.index := by omega
    have hwv : w = v :=
      List.inj_on_of_nodup_map hnd hw (hperm.symm.subset hv) hidx
    rw [hpin, hpin2, hwv]
  · have hno : ∀ c ∈ pb.connInfo, c.ready = false := by
      intro c hc
      cases hr : c.ready with
      | false => rfl
      | true => exact absurd ⟨c, hc, hr⟩ hex
    rw [updatePinned_none pb hno,
      updatePinned_none qb (fun c hc => hno c (hperm.symm.subset hc))]

/-! ## What `Build` does to the record of one address -/

theorem Modify_of_Get_none (f : connInfo → connInfo) (m : AddressMap) (a : Address)
    (h : AddressMap.Get m a = none) : AddressMap.Modify m a f = m := by
  induction m with
  | nil => rfl
  | cons d ds ih =>
    rw [Get_cons] at h
    unfold AddressMap.Modify
    by_cases hd : d.addr = a
    · rw [if_pos hd] at h
      exact absurd h (by simp)
    · rw [if_neg hd] at h
      rw [if_neg hd, ih h]

theorem Get_Modify (f : connInfo → connInfo) (hf : ∀ c, (f c).addr = c.addr)
    (m : AddressMap) (a b : Address) :
    AddressMap.Get (AddressMap.Modify m a f) b =
      if b = a then (AddressMap.Get m a).map f else AddressMap.Get m b := by
  by_cases hba : b = a
  · rw [if_pos hba, hba]
    cases hg : AddressMap.Get m a with
    | none => rw [Modify_of_Get_none f m a hg, hg]; rfl
    | some c => rw [Get_Modify_self f hf m a c hg]; rfl
  · rw [if_neg hba, Get_Modify_other f hf m a b hba]

theorem Get_append_singleton (m : AddressMap) (v : connInfo) (a : Address) :
    AddressMap.Get (m ++ [v]) a =
      (AddressMap.Get m a).or (if v.addr = a then some v else none) := by
  unfold AddressMap.Get
  rw [List.find?_append]
  congr 1
  by_cases h : v.addr = a <;> simp [h]

/-- The effect of one round of the first loop of `Build` on the record of `a`. -/
theorem buildTrack_Get (st : pickerBuilder × List Address) (sc : SubConn × Address)
    (a : Address) :
    AddressMap.Get (buildTrack st sc).1.connInfo a =
      if sc.2 = a then
        some (match AddressMap.Get st.1.connInfo a with
          | some v => { v with ready := true }
          | none =>
            { conn := sc.1, addr := sc.2, index := st.1.maxIndex, failedAt := 0, ready := true })
      else AddressMap.Get st.1.connInfo a := by
  cases hg : AddressMap.Get st.1.connInfo sc.2 with
  | some c0 =>
    rw [buildTrack_some st sc c0 hg]
    have hG := Get_Modify (fun v : connInfo => { v with ready := true }) (fun _ => rfl)
      st.1.connInfo sc.2 a
    show AddressMap.Get (AddressMap.Modify st.1.connInfo sc.2 _) a = _
    rw [hG]
    by_cases h : sc.2 = a
    · subst h
      rw [if_pos rfl, if_pos rfl, hg]
      rfl
    · rw [if_neg h, if_neg (fun e => h e.symm)]
  | none =>
    rw [buildTrack_none st sc hg]
    show AddressMap.Get (st.1.connInfo ++ _) a = _
    rw [Get_append_singleton]
    by_cases h : sc.2 = a
    · subst h
      rw [if_pos rfl, hg]
      simp
    · rw [if_neg h]
      simp [h]

theorem buildTrack_snd (st : pickerBuilder × List Address) (sc : SubConn × Address) :
    (buildTrack st sc).2 = sc.2 :: st.2 := by
  cases hg : AddressMap.Get st.1.connInfo sc.2 with
  | some c0 => rw [buildTrack_some st sc c0 hg]
  | none => rw [buildTrack_none st sc hg]

theorem foldl_buildTrack_snd (r : List (SubConn × Address))
    (st : pickerBuilder × List Address) (a : Address) :
    a ∈ (r.foldl buildTrack st).2 ↔ a ∈ r.map Prod.snd ∨ a ∈ st.2 := by
  induction r generalizing st with
  | nil => simp
  | cons sc scs ih =>
    rw [List.foldl_cons, ih, buildTrack_snd]
    simp only [List.mem_cons, List.map_cons]
    constructor
    · rintro (h | h | h)
      · exact Or.inl (Or.inr h)
      · exact Or.inl (Or.inl h)
      · exact Or.inr h
    · rintro ((h | h) | h)
      · exact Or.inr (Or.inl h)
      · exact Or.inl h
      · exact Or.inr (Or.inr h)

/-- A record that is tracked when the first loop of `Build` starts comes out of
it with nothing changed but `ready`, which is set when the snapshot names the
address. -/
theorem foldl_buildTrack_Get_some (r : List (SubConn × Address))
    (st : pickerBuilder × List Address) (a : Address) (v : connInfo)
    (h : AddressMap.Get st.1.connInfo a = some v) :
    AddressMap.Get (r.foldl buildTrack st).1.connInfo a =
      some { v with ready := v.ready || decide (a ∈ r.map Prod.snd) } := by
  induction r generalizing st v with
  | nil => simp [h]
  | cons sc scs ih =>
    rw [List.foldl_cons]
    have hstep := buildTrack_Get st sc a
    by_cases hsa : sc.2 = a
    · rw [if_pos hsa, h] at hstep
      rw [ih _ _ hstep]
      simp [hsa]
    · rw [if_neg hsa, h] at hstep
      rw [ih _ _ hstep]
      have : (a ∈ List.map Prod.snd (sc :: scs)) ↔ a ∈ List.map Prod.snd scs := by
        simp only [List.map_cons, List.mem_cons]
        constructor
        · rintro (h1 | h1)
          · exact absurd h1.symm hsa
          · exact h1
        · exact Or.inr
      simp only [this]

theorem foldl_buildTrack_Get_none (r : List (SubConn × Address))
    (st : pickerBuilder × List Address) (a : Address)
    (h : AddressMap.Get st.1.connInfo a = none) (ha : a ∉ r.map Prod.snd) :
    AddressMap.Get (r.foldl buildTrack st).1.connInfo a = none := by
  induction r generalizing st with
  | nil => exact h
  | cons sc scs ih =>
    rw [List.foldl_cons]
    have hsa : ¬ sc.2 = a := by
      intro e
      exact ha (by simp [← e])
    have hstep := buildTrack_Get st sc a
    rw [if_neg hsa, h] at hstep
    exact ih _ hstep (fun hm => ha (by simp only [List.map_cons, List.mem_cons]; exact Or.inr hm))

theorem foldl_buildUnready_Get (ready ks : List Address) (m : AddressMap) (a : Address) :
    AddressMap.Get (ks.foldl (buildUnready ready) m) a =
      (AddressMap.Get m a).map
        (fun v => if a ∈ ready ∨ a ∉ ks then v else { v with ready := false }) := by
  induction ks generalizing m with
  | nil =>
    cases hg : AddressMap.Get m a with
    | none => simp [hg]
    | some v => simp [hg]
  | cons k ks ih =>
    rw [List.foldl_cons, ih]
    unfold buildUnready
    by_cases hk : k ∈ ready
    · rw [if_pos hk]
      cases hg : AddressMap.Get m a with
      | none => rfl
      | some v =>
        simp only [Option.map_some']
        by_cases har : a ∈ ready
        · simp [har]
        · have hak : a ≠ k := fun e => har (e ▸ hk)
          simp [har, hak]
    · rw [if_neg hk]
      have hG := Get_Modify (fun v : connInfo => { v with ready := false }) (fun _ => rfl) m k a
      rw [hG]
      by_cases hak : a = k
      · subst hak
        rw [if_pos rfl]
        cases hg : AddressMap.Get m a with
        | none => rfl
        | some v =>
          simp only [Option.map_some']
          by_cases hks : a ∈ ks <;> simp [hk, hks]
      · rw [if_neg hak]
        cases hg : AddressMap.Get m a with
        | none => rfl
        | some v =>
          simp only [Option.map_some']
          simp [hak]

/-- The record of `a` after `Build`, as a function of the record of `a` after
the first loop. -/
theorem Build_Get (pb : pickerBuilder) (r : List (SubConn × Address)) (a : Address) :
    AddressMap.Get (Build pb r).connInfo a =
      (AddressMap.Get (r.foldl buildTrack (pb, [])).1.connInfo a).map
        (fun v => if a ∈ r.map Prod.snd then v else { v with ready := false }) := by
  unfold Build
  simp only [updatePinned_connInfo]
  rw [foldl_buildUnready_Get]
  cases hg : AddressMap.Get (r.foldl buildTrack (pb, [])).1.connInfo a with
  | none => rfl
  | some v =>
    have hkey : a ∈ AddressMap.Keys (r.foldl buildTrack (pb, [])).1.connInfo :=
      (Get_isSome_iff _ _).1 ⟨v, hg⟩
    have hrd : a ∈ (r.foldl buildTrack (pb, [])).2 ↔ a ∈ r.map Prod.snd := by
      rw [foldl_buildTrack_snd]
      simp
    simp only [Option.map_some', hrd, hkey, not_true_eq_false, or_false]

/-- A record tracked before `Build` keeps everything but `ready`, and is ready
afterwards exactly when the snapshot names its address. -/
theorem Build_Get_tracked (pb : pickerBuilder) (r : List (SubConn × Address)) (a : Address)
    (v : connInfo) (h : AddressMap.Get pb.connInfo a = some v) :
    AddressMap.Get (Build pb r).connInfo a =
      some { v with ready := decide (a ∈ r.map Prod.snd) } := by
  rw [Build_Get, foldl_buildTrack_Get_some r (pb, []) a v h]
  by_cases ha : a ∈ r.map Prod.snd
  · simp [ha]
  · simp [ha]

theorem Build_Get_untracked (pb : pickerBuilder) (r : List (SubConn × Address)) (a : Address)
    (h : AddressMap.Get pb.connInfo a = none) (ha : a ∉ r.map Prod.snd) :
    AddressMap.Get (Build pb r).connInfo a = none := by
  rw [Build_Get, foldl_buildTrack_Get_none r (pb, []) a h ha]
  rfl

/-- An address named by the snapshot is tracked after the first loop of
`Build`, with a record that is ready. -/
theorem foldl_buildTrack_Get_mem (r : List (SubConn × Address))
    (st : pickerBuilder × List Address) (a : Address) (ha : a ∈ r.map Prod.snd) :
    ∃ v, AddressMap.Get (r.foldl buildTrack st).1.connInfo a = some v ∧ v.ready = true := by
  induction r generalizing st with
  | nil => simp at ha
  | cons sc scs ih =>
    rw [List.foldl_cons]
    by_cases hsa : sc.2 = a
    · have hstep := buildTrack_Get st sc a
      rw [if_pos hsa] at hstep
      refine ⟨_, foldl_buildTrack_Get_some scs _ a _ hstep, ?_⟩
      cases AddressMap.Get st.1.connInfo a <;> simp
    · refine ih _ ?_
      simp only [List.map_cons, List.mem_cons] at ha
      rcases ha with h1 | h1
      · exact absurd h1.symm hsa
      · exact h1

theorem exists_first_occurrence (r : List (SubConn × Address)) (a : Address)
    (ha : a ∈ r.map Prod.snd) :
    ∃ pre c post, r = pre ++ (c, a) :: post ∧ a ∉ pre.map Prod.snd := by
  induction r with
  | nil => simp at ha
  | cons sc scs ih =>
    by_cases hsa : sc.2 = a
    · exact ⟨[], sc.1, scs, by simp [← hsa], by simp⟩
    · have ha2 : a ∈ scs.map Prod.snd := by
        simp only [List.map_cons, List.mem_cons] at ha
        rcases ha with h1 | h1
        · exact absurd h1.symm hsa
        · exact h1
      obtain ⟨pre, c, post, hr, hpre⟩ := ih ha2
      refine ⟨sc :: pre, c, post, by rw [hr]; rfl, ?_⟩
      simp only [List.map_cons, List.mem_cons, not_or]
      exact ⟨fun e => hsa e.symm, hpre⟩

/-- The record that the first loop of `Build` creates for an address that was
not tracked: its index is the value of `maxIndex` when its entry is reached. -/
theorem foldl_buildTrack_Get_new (pre post : List (SubConn × Address)) (c : SubConn)
    (a : Address) (st : pickerBuilder × List Address)
    (h : AddressMap.Get st.1.connInfo a = none) (hpre : a ∉ pre.map Prod.snd) :
    AddressMap.Get ((pre ++ (c, a) :: post).foldl buildTrack st).1.connInfo a =
      some { addr := a, conn := c, index := (pre.foldl buildTrack st).1.maxIndex,
             failedAt := 0, ready := true } := by
  rw [List.foldl_append, List.foldl_cons]
  have h1 := foldl_buildTrack_Get_none pre st a h hpre
  have h2 := buildTrack_Get (pre.foldl buildTrack st) (c, a) a
  rw [if_pos rfl, h1] at h2
  rw [foldl_buildTrack_Get_some post _ a _ h2]
  simp

/-! ## C11: readiness follows the snapshot -/

/-- C11. After `Build` with the ready snapshot `r`, for every inventory: every
address of `r` is tracked and its record is ready; the record of every tracked
address that `r` does not name is not ready; a record tracked before keeps its
`failedAt` (and its handle and index), a record created by this `Build` has
`failedAt = 0`; `failureClock` is unchanged. -/
theorem C11_build_readiness (pb : pickerBuilder) (r : List (SubConn × Address)) :
    (∀ a ∈ r.map Prod.snd,
      ∃ v, AddressMap.Get (Build pb r).connInfo a = some v ∧ v.ready = true) ∧
    (∀ a v, AddressMap.Get (Build pb r).connInfo a = some v → a ∉ r.map Prod.snd →
      v.ready = false) ∧
    (∀ a v, AddressMap.Get pb.connInfo a = some v →
      ∃ w, AddressMap.Get (Build pb r).connInfo a = some w ∧ w.failedAt = v.failedAt ∧
        w.conn = v.conn ∧ w.index = v.index) ∧
    (∀ a w, AddressMap.Get pb.connInfo a = none →
      AddressMap.Get (Build pb r).connInfo a = some w → w.failedAt = 0) ∧
    (Build pb r).failureClock = pb.failureClock := by
  refine ⟨?_, ?_, ?_, ?_, Build_failureClock pb r⟩
  · intro a ha
    obtain ⟨v, hv, hvr⟩ := foldl_buildTrack_Get_mem r (pb, []) a ha
    refine ⟨v, ?_, hvr⟩
    rw [Build_Get, hv]
    simp [ha]
  · intro a v hv ha
    rw [Build_Get] at hv
    cases hg : AddressMap.Get (r.foldl buildTrack (pb, [])).1.connInfo a with
    | none => rw [hg] at hv; exact absurd hv (by simp)
    | some u =>
      rw [hg] at hv
      simp only [Option.map_some', if_neg ha, Option.some.injEq] at hv
      rw [← hv]
  · intro a v hv
    exact ⟨_, Build_Get_tracked pb r a v hv, rfl, rfl, rfl⟩
  · intro a w hnone hw
    by_cases ha : a ∈ r.map Prod.snd
    · obtain ⟨pre, c, post, hr, hpre⟩ := exists_first_occurrence r a ha
      rw [Build_Get, hr, foldl_buildTrack_Get_new pre post c a (pb, []) hnone hpre] at hw
      simp only [Option.map_some', Option.some.injEq] at hw
      rw [← hw]
      split <;> rfl
    · rw [Build_Get_untracked pb r a hnone ha] at hw
      exact absurd hw (by simp)

/-- C11 at `pbTwoReady` with a snapshot that names only B: B stays ready, and A,
tracked but not named, is marked not ready. -/
theorem C11_build_readiness_witness :
    (∃ v, AddressMap.Get (Build pbTwoReady [(12, addrB)]).connInfo addrB = some v ∧
      v.ready = true) ∧
    (∀ v, AddressMap.Get (Build pbTwoReady [(12, addrB)]).connInfo addrA = some v →
      v.ready = false) :=
  ⟨(C11_build_readiness pbTwoReady [(12, addrB)]).1 addrB (by decide),
    fun v hv => (C11_build_readiness pbTwoReady [(12, addrB)]).2.1 addrA v hv (by decide)⟩

/-! ## C12: the index of a new record -/

theorem foldl_buildTrack_maxIndex_ge (r : List (SubConn × Address)) (n : Nat)
    (st : pickerBuilder × List Address)
    (hmax : st.1.maxIndex ≤ n) (hn : n + r.length < 2 ^ 16) :
    st.1.maxIndex ≤ (r.foldl buildTrack st).1.maxIndex ∧
      (r.foldl buildTrack st).1.maxIndex ≤ n + r.length := by
  induction r generalizing st n with
  | nil => exact ⟨Nat.le_refl _, hmax⟩
  | cons sc scs ih =>
    rw [List.length_cons] at hn ⊢
    rw [List.foldl_cons]
    have hstep : st.1.maxIndex ≤ (buildTrack st sc).1.maxIndex ∧
        (buildTrack st sc).1.maxIndex ≤ n + 1 := by
      cases hg : AddressMap.Get st.1.connInfo sc.2 with
      | some c0 =>
        rw [buildTrack_some st sc c0 hg]
        exact ⟨Nat.le_refl _, Nat.le_trans hmax (Nat.le_add_right _ _)⟩
      | none =>
        rw [buildTrack_none st sc hg]
        have hmod : (st.1.maxIndex + 1) % 2 ^ 16 = st.1.maxIndex + 1 :=
          Nat.mod_eq_of_lt (by omega)
        simp only [hmod]
        omega
    obtain ⟨h1, h2⟩ := ih (n + 1) (buildTrack st sc) hstep.2 (by omega)
    exact ⟨Nat.le_trans hstep.1 h1, by omega⟩

theorem buildTrack_length (st : pickerBuilder × List Address) (sc : SubConn × Address) :
    ((buildTrack st sc).1.connInfo.length = st.1.connInfo.length ∧
      (buildTrack st sc).1.maxIndex = st.1.maxIndex ∧
      ∀ c ∈ (buildTrack st sc).1.connInfo, ∃ d ∈ st.1.connInfo, c.index = d.index) ∨
    ((buildTrack st sc).1.connInfo.length = st.1.connInfo.length + 1 ∧
      (buildTrack st sc).1.maxIndex = (st.1.maxIndex + 1) % 2 ^ 16 ∧
      ∀ c ∈ (buildTrack st sc).1.connInfo,
        (∃ d ∈ st.1.connInfo, c.index = d.index) ∨ c.index = st.1.maxIndex) := by
  cases hg : AddressMap.Get st.1.connInfo sc.2 with
  | some c0 =>
    left
    rw [buildTrack_some st sc c0 hg]
    have hmap : (AddressMap.Modify st.1.connInfo sc.2 (fun v => { v with ready := true })).map
        (fun c => c.index) = st.1.connInfo.map (fun c => c.index) := by
      rw [Modify_map (fun c => c.index)]
      intro _
      rfl
    refine ⟨?_, rfl, ?_⟩
    · have := congrArg List.length hmap
      simpa using this
    · intro c hc
      have h1 : c.index ∈ st.1.connInfo.map (fun c => c.index) := by
        rw [← hmap]
        exact List.mem_map_of_mem (fun c => c.index) hc
      obtain ⟨d, hd, hdc⟩ := List.mem_map.1 h1
      exact ⟨d, hd, hdc.symm⟩
  | none =>
    right
    rw [buildTrack_none st sc hg]
    refine ⟨by simp, rfl, ?_⟩
    intro c hc
    rcases List.mem_append.1 hc with h1 | h1
    · exact Or.inl ⟨c, h1, rfl⟩
    · right
      rw [List.mem_singleton.1 h1]

theorem foldl_buildTrack_length_le (r : List (SubConn × Address))
    (st : pickerBuilder × List Address) :
    st.1.connInfo.length ≤ (r.foldl buildTrack st).1.connInfo.length := by
  induction r generalizing st with
  | nil => exact Nat.le_refl _
  | cons sc scs ih =>
    rw [List.foldl_cons]
    refine Nat.le_trans ?_ (ih _)
    rcases buildTrack_length st sc with h | h
    · rw [h.1]
    · rw [h.1]
      exact Nat.le_add_right _ _

/-- While the counter does not overflow, the first loop of `Build` raises
`maxIndex` by the number of records it creates, and every tracked index stays
below `maxIndex`. -/
theorem foldl_buildTrack_created (r : List (SubConn × Address))
    (st : pickerBuilder × List Address)
    (hlt : ∀ c ∈ st.1.connInfo, c.index < st.1.maxIndex)
    (hn : st.1.maxIndex +
      ((r.foldl buildTrack st).1.connInfo.length - st.1.connInfo.length) < 2 ^ 16) :
    (r.foldl buildTrack st).1.maxIndex =
      st.1.maxIndex + ((r.foldl buildTrack st).1.connInfo.length - st.1.connInfo.length) ∧
    ∀ c ∈ (r.foldl buildTrack st).1.connInfo, c.index < (r.foldl buildTrack st).1.maxIndex := by
  induction r generalizing st with
  | nil => exact ⟨by simp, hlt⟩
  | cons sc scs ih =>
    rw [List.foldl_cons] at hn ⊢
    have hle := foldl_buildTrack_length_le scs (buildTrack st sc)
    rcases buildTrack_length st sc with ⟨h1, h2, h3⟩ | ⟨h1, h2, h3⟩
    · have hlt2 : ∀ c ∈ (buildTrack st sc).1.connInfo, c.index < (buildTrack st sc).1.maxIndex := by
        intro c hc
        obtain ⟨d, hd, hcd⟩ := h3 c hc
        rw [hcd, h2]
        exact hlt d hd
      obtain ⟨i1, i2⟩ := ih (buildTrack st sc) hlt2 (by rw [h1, h2]; exact hn)
      exact ⟨by rw [i1, h1, h2], i2⟩
    · have hmod : (st.1.maxIndex + 1) % 2 ^ 16 = st.1.maxIndex + 1 :=
        Nat.mod_eq_of_lt (by omega)
      rw [hmod] at h2
      have hlt2 : ∀ c ∈ (buildTrack st sc).1.connInfo, c.index < (buildTrack st sc).1.maxIndex := by
        intro c hc
        rw [h2]
        rcases h3 c hc with ⟨d, hd, hcd⟩ | hcd
        · rw [hcd]
          exact Nat.lt_succ_of_lt (hlt d hd)
        · rw [hcd]
          exact Nat.lt_succ_self _
      obtain ⟨i1, i2⟩ := ih (buildTrack st sc) hlt2 (by rw [h1, h2]; omega)
      exact ⟨by rw [i1, h1, h2]; omega, i2⟩

/-- C12, as the code has it.  When `Build` reaches, in its ready snapshot, an
address `a` that is not tracked (`pre` being the entries visited before, none
of them for `a`), the record it creates has the handle reported for `a`,
`failedAt = 0`, `ready = true`, and as index the value the counter `maxIndex`
has at that moment, which is `pb.maxIndex` when the entry is the first one.
The records tracked at that moment are those of
`(pre.foldl buildTrack (pb, [])).1.connInfo`: the ones tracked before the
`Build` and the ones it created for the entries of `pre`.  If every index
tracked before the `Build` is below `pb.maxIndex`, and `pb.maxIndex` plus the
number of records created for the entries of `pre` is below `2^16`, then the
counter stands at that sum and exceeds the index of every record tracked at
that moment. -/
theorem C12_new_record_index (pb : pickerBuilder) (pre post : List (SubConn × Address))
    (c : SubConn) (a : Address)
    (hnew : AddressMap.Get pb.connInfo a = none) (hpre : a ∉ pre.map Prod.snd) :
    AddressMap.Get (Build pb (pre ++ (c, a) :: post)).connInfo a =
      some { addr := a, conn := c, index := (pre.foldl buildTrack (pb, [])).1.maxIndex,
             failedAt := 0, ready := true } ∧
    (pre = [] → (pre.foldl buildTrack (pb, [])).1.maxIndex = pb.maxIndex) ∧
    ((∀ d ∈ pb.connInfo, d.index < pb.maxIndex) →
      pb.maxIndex +
        ((pre.foldl buildTrack (pb, [])).1.connInfo.length - pb.connInfo.length) < 2 ^ 16 →
      (pre.foldl buildTrack (pb, [])).1.maxIndex =
        pb.maxIndex +
          ((pre.foldl buildTrack (pb, [])).1.connInfo.length - pb.connInfo.length) ∧
      ∀ d ∈ (pre.foldl buildTrack (pb, [])).1.connInfo,
        d.index < (pre.foldl buildTrack (pb, [])).1.maxIndex) := by
  refine ⟨?_, ?_, ?_⟩
  · rw [Build_Get, foldl_buildTrack_Get_new pre post c a (pb, []) hnew hpre]
    simp
  · intro h
    rw [h]
    rfl
  · intro hlt hn
    exact foldl_buildTrack_created pre (pb, []) hlt hn

/-- C12 after A and B became ready and B was dropped: C, reported ready with
handle 13 after A, is created with index 2, the value of `maxIndex`, and this
exceeds the index 0 of the only tracked record. -/
theorem C12_new_record_index_witness :
    AddressMap.Get (Build (run opsDropB newPickerBuilder) [(11, addrA), (13, addrC)]).connInfo
        addrC =
      some { addr := addrC, conn := 13, index := 2, failedAt := 0, ready := true } ∧
    ∀ d ∈ ([(11, addrA)].foldl buildTrack (run opsDropB newPickerBuilder, [])).1.connInfo,
      d.index < 2 :=
  ⟨(C12_new_record_index (run opsDropB newPickerBuilder) [(11, addrA)] [] 13 addrC
      (by decide) (by decide)).1,
    ((C12_new_record_index (run opsDropB newPickerBuilder) [(11, addrA)] [] 13 addrC
      (by decide) (by decide)).2.2 (by decide) (by decide)).2⟩

/-- C12 fails as stated: after A and B became ready and B was dropped, A with
index 0 is the only tracked record, and the record created for C has index 2,
not 0 + 1. -/
theorem C12_counterexample :
    (run opsDropB newPickerBuilder).connInfo =
      [{ addr := addrA, conn := 11, index := 0, failedAt := 0, ready := true }] ∧
    AddressMap.Get (Build (run opsDropB newPickerBuilder) [(11, addrA), (13, addrC)]).connInfo
        addrC =
      some { addr := addrC, conn := 13, index := 2, failedAt := 0, ready := true } ∧
    (2 : Nat) ≠ 0 + 1 := by
  decide

/-! ## C13: the handle of a tracked record -/

/-- C13, as the code has it.  When `X` is tracked with record `v` and the ready
snapshot of a `Build` reports `X`, with whatever handle, the record of `X`
afterwards is `v` with `ready = true`: it keeps the handle `v.conn` it was
created with.  If the tracked addresses are distinct and `X` is published after
the `Build`, the published handle is `v.conn`. -/
theorem C13_handle_kept (pb : pickerBuilder) (r : List (SubConn × Address)) (X : Address)
    (v : connInfo) (h2 : SubConn)
    (hX : AddressMap.Get pb.connInfo X = some v) (hr : (h2, X) ∈ r) :
    AddressMap.Get (Build pb r).connInfo X = some { v with ready := true } ∧
    ((AddressMap.Keys pb.connInfo).Nodup →
      ∀ p, (Build pb r).pinned = some p → p.addr = X → p.conn = v.conn) := by
  have hmem : X ∈ r.map Prod.snd := List.mem_map.2 ⟨(h2, X), hr, rfl⟩
  have hget : AddressMap.Get (Build pb r).connInfo X = some { v with ready := true } := by
    rw [Build_Get_tracked pb r X v hX]
    simp [hmem]
  refine ⟨hget, ?_⟩
  intro hn p hp hpX
  have hn2 := Build_keys_nodup pb r hn
  have hfix : Build pb r = updatePinnedServerLocked (Build pb r) :=
    (updatePinned_idem _).symm
  have hcons := updatePinned_consistent (Build pb r) hn2
  rw [← hfix] at hcons
  obtain ⟨cx, hcx, _, hconn⟩ := hcons.2 p hp
  rw [hpX, hget] at hcx
  rw [← hconn, ← Option.some.inj hcx]

/-- C13 at `pbTwoReady`: A is tracked with handle 11; a `Build` that reports A
with handle 21 leaves A bound to 11. -/
theorem C13_handle_kept_witness :
    AddressMap.Get (Build pbTwoReady [(21, addrA), (12, addrB)]).connInfo addrA =
      some { addr := addrA, conn := 11, index := 0, failedAt := 0, ready := true } :=
  (C13_handle_kept pbTwoReady [(21, addrA), (12, addrB)] addrA
    { addr := addrA, conn := 11, index := 0, failedAt := 0, ready := true } 21
    (by decide) (by decide)).1

/-- C13 fails as stated: A is tracked with handle 11, the snapshot reports A
with handle 21, and after `Build` the record of A and the published selection
still carry handle 11. -/
theorem C13_counterexample :
    AddressMap.Get pbTwoReady.connInfo addrA =
      some { addr := addrA, conn := 11, index := 0, failedAt := 0, ready := true } ∧
    AddressMap.Get (Build pbTwoReady [(21, addrA), (12, addrB)]).connInfo addrA =
      some { addr := addrA, conn := 11, index := 0, failedAt := 0, ready := true } ∧
    (Build pbTwoReady [(21, addrA), (12, addrB)]).pinned =
      some { addr := addrA, conn := 11 } := by
  decide

/-! ## C15: the end-to-end scenario -/

/-- C15. On a fresh `pickerBuilder`, a `Build` creates A with index 0 and B
with index 1, and `Pick` returns the connection of A; after `witnessError` on A
it returns that of B; after a further `Build` reporting A and B ready it still
returns that of B; after `witnessError` on B it returns that of A, whose
failure tick 1 is smaller than the tick 2 of B. -/
theorem C15_scenario :
    scenario1.connInfo =
      [ { addr := addrA, conn := 11, index := 0, failedAt := 0, ready := true },
        { addr := addrB, conn := 12, index := 1, failedAt := 0, ready := true } ] ∧
    pickedConn scenario1 = some 11 ∧
    pickedConn scenario2 = some 12 ∧
    pickedConn scenario3 = some 12 ∧
    pickedConn scenario4 = some 11 ∧
    scenario4.connInfo =
      [ { addr := addrA, conn := 11, index := 0, failedAt := 1, ready := true },
        { addr := addrB, conn := 12, index := 1, failedAt := 2, ready := true } ] := by
  decide

/-! ## C16: rebalance -/

theorem reindex_tuple_map (l : List connInfo) (n : Nat) :
    ((l.enumFrom n).map (fun p => { p.2 with index := p.1 % 2 ^ 16 })).map
        (fun c => (c.addr, c.conn, c.failedAt, c.ready)) =
      l.map (fun c => (c.addr, c.conn, c.failedAt, c.ready)) :=
  enumFrom_reindex_map (fun c => (c.addr, c.conn, c.failedAt, c.ready)) (fun _ _ => rfl) l n

/-- C16. For every inventory with at most `2^16` records and every sequence of
draws of the random source, after `rebalance` the indices of the records, in
the order in which they were numbered, are `0, 1, ..., n - 1`; the records are
the old ones as far as address, handle, `failedAt` and `ready` go (so the
tracked addresses are the same); `failureClock` and `maxIndex` are unchanged. -/
theorem C16_rebalance (pb : pickerBuilder) (draw : Nat → Nat)
    (hn : pb.connInfo.length ≤ 2 ^ 16) :
    (rebalance pb draw).connInfo.map (fun c => c.index) = List.range pb.connInfo.length ∧
    ((rebalance pb draw).connInfo.map (fun c => (c.addr, c.conn, c.failedAt, c.ready))).Perm
      (pb.connInfo.map (fun c => (c.addr, c.conn, c.failedAt, c.ready))) ∧
    (AddressMap.Keys (rebalance pb draw).connInfo).Perm (AddressMap.Keys pb.connInfo) ∧
    (rebalance pb draw).failureClock = pb.failureClock ∧
    (rebalance pb draw).maxIndex = pb.maxIndex := by
  refine ⟨?_, ?_, rebalance_keys_perm pb draw, rebalance_failureClock pb draw,
    rebalance_maxIndex pb draw⟩
  · rw [rebalance_index_eq]
    conv_rhs => rw [← List.map_id (List.range pb.connInfo.length)]
    apply List.map_congr_left
    intro i hi
    have := List.mem_range.1 hi
    exact Nat.mod_eq_of_lt (by omega)
  · rw [rebalance_connInfo]
    unfold List.enum
    rw [reindex_tuple_map]
    exact (Shuffle_perm draw _ _).map _

/-- C16 at `pbTwoReady` with draws that swap the two records: B gets index 0
and A index 1. -/
theorem C16_rebalance_witness :
    (rebalance pbTwoReady (fun _ => 0)).connInfo.map (fun c => c.index) = [0, 1] ∧
    (rebalance pbTwoReady (fun _ => 0)).connInfo.map (fun c => c.addr) = [addrB, addrA] :=
  ⟨(C16_rebalance pbTwoReady (fun _ => 0) (by decide)).1, by decide⟩

/-! ## C18: the interceptor and the context -/

/-- C18, as the code has it.  The interceptor does not look at the context:
when the first `k + 1` calls of the invoker return `ResourceExhausted` and
fewer than 5 attempts have been made, it sleeps and calls the invoker again,
whether or not the context is done; and two contexts under which the invoker
returns the same results give the same outcome. -/
theorem C18_retry_ignores_ctx (ctx : Nat → Bool)
    (invoker : (Nat → Bool) → Nat → Option GoError) (k : Nat) (hk : k < 4)
    (hRE : ∀ j, j ≤ k → statusCode (invoker ctx j) = ResourceExhausted) :
    k + 2 ≤ (RetryInterceptorCtx ctx invoker).invocations ∧
    k + 1 ≤ (RetryInterceptorCtx ctx invoker).sleeps ∧
    (∀ ctx2 : Nat → Bool, (∀ j, invoker ctx2 j = invoker ctx j) →
      RetryInterceptorCtx ctx2 invoker = RetryInterceptorCtx ctx invoker) := by
  refine ⟨?_, ?_, ?_⟩
  · unfold RetryInterceptorCtx
    rw [retry_unfold]
    have h0 := hRE 0 (Nat.zero_le _)
    rw [if_neg (by simp [h0])]
    split_ifs with h1 h2 h3
    · have := hRE 1
      simp only [] at *
      by_contra hcon
      exact h1 (this (by omega))
    · by_contra hcon
      exact h2 (hRE 2 (by simp only [] at hcon; omega))
    · by_contra hcon
      exact h3 (hRE 3 (by simp only [] at hcon; omega))
    · simp only []
      omega
  · unfold RetryInterceptorCtx
    rw [retry_unfold]
    have h0 := hRE 0 (Nat.zero_le _)
    rw [if_neg (by simp [h0])]
    split_ifs with h1 h2 h3
    · by_contra hcon
      exact h1 (hRE 1 (by simp only [] at hcon; omega))
    · by_contra hcon
      exact h2 (hRE 2 (by simp only [] at hcon; omega))
    · by_contra hcon
      exact h3 (hRE 3 (by simp only [] at hcon; omega))
    · simp only []
      omega
  · intro ctx2 h
    unfold RetryInterceptorCtx
    have : invoker ctx2 = invoker ctx := funext h
    rw [this]

/-- C18 with a context that is done throughout: the first call is answered
with an overload, and the interceptor sleeps and calls again. -/
theorem C18_retry_ignores_ctx_witness :
    2 ≤ (RetryInterceptorCtx ctxDone invokerThenCanceled).invocations ∧
    1 ≤ (RetryInterceptorCtx ctxDone invokerThenCanceled).sleeps :=
  ⟨(C18_retry_ignores_ctx ctxDone invokerThenCanceled 0 (by decide)
      (by intro j hj; interval_cases j; decide)).1,
    (C18_retry_ignores_ctx ctxDone invokerThenCanceled 0 (by decide)
      (by intro j hj; interval_cases j; decide)).2.1⟩

/-- C18 fails as stated: the context is done when the first call returns
`ResourceExhausted`, only one attempt has been made, and yet the interceptor
sleeps once and calls the invoker a second time. -/
theorem C18_counterexample :
    ctxDone 0 = true ∧
    statusCode (invokerThenCanceled ctxDone 0) = ResourceExhausted ∧
    (RetryInterceptorCtx ctxDone invokerThenCanceled).invocations = 2 ∧
    (RetryInterceptorCtx ctxDone invokerThenCanceled).sleeps = 1 := by
  refine ⟨rfl, by decide, ?_, ?_⟩
  · unfold RetryInterceptorCtx
    rw [retry_unfold]
    decide
  · unfold RetryInterceptorCtx
    rw [retry_unfold]
    decide

/-! ## The published selection is the ranking of the inventory -/

theorem run_fix (ops : List Op) (pb : pickerBuilder)
    (h : updatePinnedServerLocked pb = pb) :
    updatePinnedServerLocked (run ops pb) = run ops pb := by
  induction ops generalizing pb with
  | nil => exact h
  | cons op ops ih =>
    rw [run_cons]
    apply ih
    rcases step_fix pb op with hfix | hfix
    · exact hfix.symm
    · rw [hfix]
      exact h

theorem newPickerBuilder_fix : updatePinnedServerLocked newPickerBuilder = newPickerBuilder := by
  decide

/-! ## Failure ticks are not shared -/

theorem buildTrack_distinct (st : pickerBuilder × List Address) (sc : SubConn × Address)
    (h : (st.1.connInfo.map (fun c => c.failedAt)).Pairwise (fun x y => x = y → x = 0)) :
    ((buildTrack st sc).1.connInfo.map (fun c => c.failedAt)).Pairwise
      (fun x y => x = y → x = 0) := by
  cases hg : AddressMap.Get st.1.connInfo sc.2 with
  | some c0 =>
    rw [buildTrack_some st sc c0 hg]
    show ((AddressMap.Modify st.1.connInfo sc.2 _).map (fun c => c.failedAt)).Pairwise _
    rw [Modify_map (fun c => c.failedAt)]
    · exact h
    · intro _
      rfl
  | none =>
    rw [buildTrack_none st sc hg]
    show ((st.1.connInfo ++ _).map (fun c => c.failedAt)).Pairwise _
    rw [List.map_append, List.pairwise_append]
    refine ⟨h, by simp, ?_⟩
    intro x _ y hy hxy
    have hy0 : y = 0 := by simpa using hy
    rw [hxy, hy0]

theorem foldl_buildTrack_distinct (r : List (SubConn × Address))
    (st : pickerBuilder × List Address)
    (h : (st.1.connInfo.map (fun c => c.failedAt)).Pairwise (fun x y => x = y → x = 0)) :
    ((r.foldl buildTrack st).1.connInfo.map (fun c => c.failedAt)).Pairwise
      (fun x y => x = y → x = 0) := by
  induction r generalizing st with
  | nil => exact h
  | cons sc scs ih =>
    rw [List.foldl_cons]
    exact ih _ (buildTrack_distinct st sc h)

theorem Build_distinct (pb : pickerBuilder) (r : List (SubConn × Address))
    (h : (pb.connInfo.map (fun c => c.failedAt)).Pairwise (fun x y => x = y → x = 0)) :
    ((Build pb r).connInfo.map (fun c => c.failedAt)).Pairwise (fun x y => x = y → x = 0) := by
  unfold Build
  simp only [updatePinned_connInfo]
  rw [foldl_buildUnready_map (fun c => c.failedAt) (fun _ _ => rfl)]
  exact foldl_buildTrack_distinct r (pb, []) h

theorem forgetOldConns_distinct (pb : pickerBuilder) (L : List Address)
    (h : (pb.connInfo.map (fun c => c.failedAt)).Pairwise (fun x y => x = y → x = 0)) :
    ((forgetOldConns pb L).connInfo.map (fun c => c.failedAt)).Pairwise
      (fun x y => x = y → x = 0) := by
  rw [forgetOldConns_connInfo]
  exact List.Pairwise.sublist (List.Sublist.map _ (List.filter_sublist _)) h

theorem rebalance_failedAt_perm (pb : pickerBuilder) (draw : Nat → Nat) :
    ((rebalance pb draw).connInfo.map (fun c => c.failedAt)).Perm
      (pb.connInfo.map (fun c => c.failedAt)) := by
  rw [rebalance_connInfo]
  unfold List.enum
  rw [enumFrom_reindex_map (fun c => c.failedAt) (fun _ _ => rfl)]
  exact (Shuffle_perm draw _ _).map _

theorem rebalance_distinct (pb : pickerBuilder) (draw : Nat → Nat)
    (h : (pb.connInfo.map (fun c => c.failedAt)).Pairwise (fun x y => x = y → x = 0)) :
    ((rebalance pb draw).connInfo.map (fun c => c.failedAt)).Pairwise
      (fun x y => x = y → x = 0) := by
  refine ((rebalance_failedAt_perm pb draw).pairwise_iff ?_).2 h
  intro x y hxy hyx
  rw [hyx]
  exact (hxy hyx.symm) ▸ hyx ▸ rfl

theorem Modify_fresh_distinct (m : AddressMap) (a : Address) (k : Nat)
    (hfresh : ∀ c ∈ m, c.failedAt ≠ k)
    (h : (m.map (fun c => c.failedAt)).Pairwise (fun x y => x = y → x = 0)) :
    ((AddressMap.Modify m a (fun v => { v with failedAt := k })).map
      (fun c => c.failedAt)).Pairwise (fun x y => x = y → x = 0) := by
  induction m with
  | nil => simp [AddressMap.Modify]
  | cons d ds ih =>
    rw [List.map_cons, List.pairwise_cons] at h
    have hfresh2 : ∀ c ∈ ds, c.failedAt ≠ k := fun c hc => hfresh c (List.mem_cons_of_mem _ hc)
    unfold AddressMap.Modify
    by_cases hd : d.addr = a
    · rw [if_pos hd, List.map_cons, List.pairwise_cons]
      refine ⟨?_, h.2⟩
      intro y hy hky
      obtain ⟨c, hc, hcy⟩ := List.mem_map.1 hy
      exact absurd (hcy.trans hky.symm) (hfresh2 c hc)
    · rw [if_neg hd, List.map_cons, List.pairwise_cons]
      refine ⟨?_, ih hfresh2 h.2⟩
      intro y hy hdy
      obtain ⟨c, hc, hcy⟩ := List.mem_map.1 hy
      rcases mem_Modify _ _ _ _ hc with h1 | ⟨e, _, hce⟩
      · exact h.1 y (List.mem_map.2 ⟨c, h1, hcy⟩) hdy
      · have hyk : y = k := by rw [← hcy, hce]
        exact absurd (hdy.trans hyk) (hfresh d (List.mem_cons_self _ _))

theorem step_distinct (pb : pickerBuilder) (op : Op)
    (hclk : pb.failureClock + (if op.isWitness then 1 else 0) < 2 ^ 64)
    (hb : ∀ c ∈ pb.connInfo, c.failedAt ≤ pb.failureClock)
    (h : (pb.connInfo.map (fun c => c.failedAt)).Pairwise (fun x y => x = y → x = 0)) :
    ((step pb op).connInfo.map (fun c => c.failedAt)).Pairwise
      (fun x y => x = y → x = 0) := by
  cases op with
  | Build r => exact Build_distinct pb r h
  | forgetOldConns L => exact forgetOldConns_distinct pb L h
  | rebalance draw => exact rebalance_distinct pb draw h
  | witnessError X err =>
    simp only [step]
    cases hg : AddressMap.Get pb.connInfo X with
    | none =>
      rw [witnessError_untracked pb X err hg]
      exact h
    | some c0 =>
      rw [witnessError_tracked pb X err c0 hg, updatePinned_connInfo]
      have hmod : (pb.failureClock + 1) % 2 ^ 64 = pb.failureClock + 1 :=
        Nat.mod_eq_of_lt (by simpa [Op.isWitness] using hclk)
      simp only [hmod]
      refine Modify_fresh_distinct pb.connInfo X (pb.failureClock + 1) ?_ h
      intro c hc
      have := hb c hc
      omega

/-- Below `2^64` reported failures, no `failedAt` exceeds the clock and no two
records share a non-zero `failedAt`. -/
theorem run_clock (ops : List Op) (pb : pickerBuilder) (n : Nat)
    (hclock : pb.failureClock ≤ n) (hn : n + witnessCount ops < 2 ^ 64)
    (hb : ∀ c ∈ pb.connInfo, c.failedAt ≤ pb.failureClock)
    (h : (pb.connInfo.map (fun c => c.failedAt)).Pairwise (fun x y => x = y → x = 0)) :
    (run ops pb).failureClock ≤ n + witnessCount ops ∧
    (∀ c ∈ (run ops pb).connInfo, c.failedAt ≤ (run ops pb).failureClock) ∧
    ((run ops pb).connInfo.map (fun c => c.failedAt)).Pairwise (fun x y => x = y → x = 0) := by
  induction ops generalizing pb n with
  | nil => exact ⟨by simpa [witnessCount, run] using hclock, hb, h⟩
  | cons op ops ih =>
    rw [witnessCount_cons] at hn ⊢
    obtain ⟨h1, h2⟩ := step_failedAt pb op n hclock (by omega) hb
    have h3 := step_distinct pb op (by omega) hb h
    have := ih (step pb op) (n + (if op.isWitness then 1 else 0)) h1 (by omega) h2 h3
    rw [Nat.add_assoc] at this
    exact this

/-! ## C19: the failure clock -/

theorem newPickerBuilder_keys : (AddressMap.Keys newPickerBuilder.connInfo).Nodup := by
  simp [newPickerBuilder, AddressMap.Keys]

/-- C19. In a state reached from a fresh `pickerBuilder` by calls that report
fewer than `2^64` failures, no record has a `failedAt` above `failureClock`, and
two distinct tracked records never share a non-zero `failedAt`.  Hence, when a
further failure (still fewer than `2^64` in all) is witnessed on a tracked
address `X`, the `failedAt` of `X` exceeds that of every other tracked record. -/
theorem C19_failure_clock (ops : List Op) (h : witnessCount ops < 2 ^ 64) :
    (∀ c ∈ (run ops newPickerBuilder).connInfo,
      c.failedAt ≤ (run ops newPickerBuilder).failureClock) ∧
    (∀ c ∈ (run ops newPickerBuilder).connInfo, ∀ d ∈ (run ops newPickerBuilder).connInfo,
      c ≠ d → 0 < c.failedAt → c.failedAt ≠ d.failedAt) ∧
    (∀ X err cx, AddressMap.Get (run ops newPickerBuilder).connInfo X = some cx →
      witnessCount ops + 1 < 2 ^ 64 →
      ∃ cy, AddressMap.Get (witnessError (run ops newPickerBuilder) X err).connInfo X = some cy ∧
        ∀ d ∈ (witnessError (run ops newPickerBuilder) X err).connInfo,
          d.addr ≠ X → d.failedAt < cy.failedAt) := by
  obtain ⟨hclk, hb, hp⟩ := run_clock ops newPickerBuilder 0 (Nat.le_refl _) (by omega)
    (fun c hc => absurd hc (List.not_mem_nil _)) (by simp [newPickerBuilder])
  have hn := run_keys_nodup ops newPickerBuilder newPickerBuilder_keys
  refine ⟨hb, ?_, ?_⟩
  · intro c hc d hd hcd hpos hEq
    rw [List.pairwise_map] at hp
    have hsym : Symmetric (fun a b : connInfo => a.failedAt = b.failedAt → a.failedAt = 0) := by
      intro a b hab hba
      rw [hba]
      exact hab hba.symm
    have := List.Pairwise.forall hsym hp hc hd hcd hEq
    omega
  · intro X err cx hX hcount
    have hmod : ((run ops newPickerBuilder).failureClock + 1) % 2 ^ 64 =
        (run ops newPickerBuilder).failureClock + 1 := Nat.mod_eq_of_lt (by omega)
    have hkeys := witnessError_keys (run ops newPickerBuilder) X err
    have hG := Get_Modify
      (fun v : connInfo => { v with failedAt := (run ops newPickerBuilder).failureClock + 1 })
      (fun _ => rfl) (run ops newPickerBuilder).connInfo X
    rw [witnessError_tracked _ X err cx hX, updatePinned_connInfo, hmod] at hkeys ⊢
    refine ⟨{ cx with failedAt := (run ops newPickerBuilder).failureClock + 1 }, ?_, ?_⟩
    · show AddressMap.Get (AddressMap.Modify _ X _) X = _
      rw [hG X, if_pos rfl, hX]
      rfl
    · intro d hd hdX
      have hd2 : AddressMap.Get (AddressMap.Modify (run ops newPickerBuilder).connInfo X
          (fun v => { v with failedAt := (run ops newPickerBuilder).failureClock + 1 }))
          d.addr = some d :=
        Get_of_mem_nodup _ d (by rw [hkeys]; exact hn) hd
      rw [hG d.addr, if_neg hdX] at hd2
      have := hb d (Get_some_mem _ _ _ hd2).1
      show d.failedAt < (run ops newPickerBuilder).failureClock + 1
      omega

/-- C19 after A and B became ready and a call on A failed: the clock shows 1,
A has `failedAt = 1`, and a failure then witnessed on B gives B a larger
`failedAt` than A has. -/
theorem C19_failure_clock_witness :
    (∀ c ∈ (run opsAFailed newPickerBuilder).connInfo, c.failedAt ≤ 1) ∧
    ∃ cy, AddressMap.Get
        (witnessError (run opsAFailed newPickerBuilder) addrB errExhausted).connInfo addrB =
          some cy ∧
      ∀ d ∈ (witnessError (run opsAFailed newPickerBuilder) addrB errExhausted).connInfo,
        d.addr ≠ addrB → d.failedAt < cy.failedAt :=
  ⟨(C19_failure_clock opsAFailed (by decide)).1,
    (C19_failure_clock opsAFailed (by decide)).2.2 addrB errExhausted
      { addr := addrB, conn := 12, index := 1, failedAt := 0, ready := true }
      (by decide) (by decide)⟩

/-! ## C20: a sole ready connection -/

theorem pickedConn_eq (pb : pickerBuilder) :
    pickedConn pb = pb.pinned.map (fun p => p.conn) := by
  unfold pickedConn Pick
  cases pb.pinned <;> rfl

theorem sole_ready_pinned (pb : pickerBuilder) (X : Address) (cx : connInfo)
    (hn : (AddressMap.Keys pb.connInfo).Nodup)
    (hX : AddressMap.Get pb.connInfo X = some cx) (hr : cx.ready = true)
    (hsole : ∀ c ∈ pb.connInfo, c.ready = true → c.addr = X) :
    (updatePinnedServerLocked pb).pinned = some { addr := X, conn := cx.conn } := by
  obtain ⟨w, hw, hwr, hpin, _⟩ := updatePinned_some pb cx (Get_some_mem _ _ _ hX).1 hr
  have hwX : w.addr = X := hsole w hw hwr
  have hgw := Get_of_mem_nodup _ w hn hw
  rw [hwX, hX] at hgw
  rw [hpin, hwX, ← Option.some.inj hgw]

theorem sole_ready_step (pb : pickerBuilder) (X : Address) (cx : connInfo) (err : GoError)
    (hn : (AddressMap.Keys pb.connInfo).Nodup)
    (hX : AddressMap.Get pb.connInfo X = some cx) (hr : cx.ready = true)
    (hsole : ∀ c ∈ pb.connInfo, c.ready = true → c.addr = X) :
    (witnessError pb X err).pinned = some { addr := X, conn := cx.conn } ∧
    (AddressMap.Keys (witnessError pb X err).connInfo).Nodup ∧
    (∃ cy, AddressMap.Get (witnessError pb X err).connInfo X = some cy ∧ cy.ready = true ∧
      cy.conn = cx.conn) ∧
    (∀ c ∈ (witnessError pb X err).connInfo, c.ready = true → c.addr = X) := by
  have hkeys := witnessError_keys pb X err
  have hG := Get_Modify
    (fun v : connInfo => { v with failedAt := (pb.failureClock + 1) % 2 ^ 64 })
    (fun _ => rfl) pb.connInfo X X
  rw [if_pos rfl, hX, Option.map_some'] at hG
  have hsole2 : ∀ c ∈ AddressMap.Modify pb.connInfo X
      (fun v => { v with failedAt := (pb.failureClock + 1) % 2 ^ 64 }),
      c.ready = true → c.addr = X := by
    intro c hc hcr
    rcases mem_Modify _ _ _ _ hc with h1 | ⟨e, he, hce⟩
    · exact hsole c h1 hcr
    · rw [hce] at hcr ⊢
      exact hsole e he hcr
  rw [witnessError_tracked pb X err cx hX] at hkeys ⊢
  rw [updatePinned_connInfo] at hkeys ⊢
  refine ⟨?_, by rw [hkeys]; exact hn, ⟨_, hG, hr, rfl⟩, hsole2⟩
  exact sole_ready_pinned _ X { cx with failedAt := (pb.failureClock + 1) % 2 ^ 64 }
    (by rw [hkeys]; exact hn) hG hr hsole2

theorem sole_ready_run (errs : List GoError) (pb : pickerBuilder) (X : Address) (cx : connInfo)
    (hn : (AddressMap.Keys pb.connInfo).Nodup)
    (hpin : pb.pinned = some { addr := X, conn := cx.conn })
    (hX : AddressMap.Get pb.connInfo X = some cx) (hr : cx.ready = true)
    (hsole : ∀ c ∈ pb.connInfo, c.ready = true → c.addr = X) :
    (run (errs.map (Op.witnessError X)) pb).pinned = some { addr := X, conn := cx.conn } := by
  induction errs generalizing pb cx with
  | nil => exact hpin
  | cons e es ih =>
    rw [List.map_cons, run_cons]
    obtain ⟨h1, h2, ⟨cy, hcy, hcyr, hcyc⟩, h4⟩ := sole_ready_step pb X cx e hn hX hr hsole
    have := ih (step pb (Op.witnessError X e)) cy h2 (by rw [hcyc]; exact h1) hcy hcyr h4
    rw [hcyc] at this
    exact this

/-- C20. In a state reached from a fresh `pickerBuilder` in which the record of
`X` is the only one that is ready, `X` is published with the handle of its
record, and it stays published with that handle after `witnessError` on `X`,
and after any number of them: `Pick` keeps returning the connection of `X`. -/
theorem C20_sole_ready (ops : List Op) (X : Address) (cx : connInfo)
    (hX : AddressMap.Get (run ops newPickerBuilder).connInfo X = some cx)
    (hr : cx.ready = true)
    (hsole : ∀ c ∈ (run ops newPickerBuilder).connInfo, c.ready = true → c.addr = X) :
    (run ops newPickerBuilder).pinned = some { addr := X, conn := cx.conn } ∧
    (∀ err, (witnessError (run ops newPickerBuilder) X err).pinned =
      some { addr := X, conn := cx.conn }) ∧
    (∀ errs : List GoError,
      (run (errs.map (Op.witnessError X)) (run ops newPickerBuilder)).pinned =
        some { addr := X, conn := cx.conn } ∧
      pickedConn (run (errs.map (Op.witnessError X)) (run ops newPickerBuilder)) =
        some cx.conn) := by
  have hn := run_keys_nodup ops newPickerBuilder newPickerBuilder_keys
  have hfix := run_fix ops newPickerBuilder newPickerBuilder_fix
  have hpin : (run ops newPickerBuilder).pinned = some { addr := X, conn := cx.conn } := by
    rw [← hfix]
    exact sole_ready_pinned _ X cx hn hX hr hsole
  refine ⟨hpin, ?_, ?_⟩
  · intro err
    exact (sole_ready_step _ X cx err hn hX hr hsole).1
  · intro errs
    have h := sole_ready_run errs _ X cx hn hpin hX hr hsole
    exact ⟨h, by rw [pickedConn_eq, h]; rfl⟩

/-- C20 with A the only connection: after three failures of A, `Pick` still
returns the connection of A. -/
theorem C20_sole_ready_witness :
    pickedConn (run ([errExhausted, errExhausted, errExhausted].map (Op.witnessError addrA))
      (run opsOnlyA newPickerBuilder)) = some 11 :=
  ((C20_sole_ready opsOnlyA addrA
    { addr := addrA, conn := 11, index := 0, failedAt := 0, ready := true }
    (by decide) rfl (by decide)).2.2 [errExhausted, errExhausted, errExhausted]).2

/-! ## C17: rebalance and failed records -/

theorem mem_reindex (l : List connInfo) (n : Nat) (c : connInfo)
    (h : c ∈ (l.enumFrom n).map (fun p => { p.2 with index := p.1 % 2 ^ 16 })) :
    ∃ u ∈ l, ∃ i, c = { u with index := i } := by
  induction l generalizing n with
  | nil => simp at h
  | cons d ds ih =>
    rw [List.enumFrom_cons, List.map_cons] at h
    rcases List.mem_cons.1 h with h1 | h1
    · exact ⟨d, List.mem_cons_self _ _, _, h1⟩
    · obtain ⟨u, hu, i, hi⟩ := ih (n + 1) h1
      exact ⟨u, List.mem_cons_of_mem _ hu, i, hi⟩

theorem reindex_mem (l : List connInfo) (n : Nat) (u : connInfo) (h : u ∈ l) :
    ∃ i, ({ u with index := i } : connInfo) ∈
      (l.enumFrom n).map (fun p => { p.2 with index := p.1 % 2 ^ 16 }) := by
  induction l generalizing n with
  | nil => exact absurd h (List.not_mem_nil _)
  | cons d ds ih =>
    rw [List.enumFrom_cons, List.map_cons]
    rcases List.mem_cons.1 h with h1 | h1
    · exact ⟨n % 2 ^ 16, by rw [h1]; exact List.mem_cons_self _ _⟩
    · obtain ⟨i, hi⟩ := ih (n + 1) h1
      exact ⟨i, List.mem_cons_of_mem _ hi⟩

theorem mem_rebalance (pb : pickerBuilder) (draw : Nat → Nat) (c : connInfo)
    (h : c ∈ (rebalance pb draw).connInfo) :
    ∃ u ∈ pb.connInfo, ∃ i, c = { u with index := i } := by
  rw [rebalance_connInfo] at h
  obtain ⟨u, hu, i, hi⟩ := mem_reindex _ 0 c h
  exact ⟨u, (Shuffle_perm draw _ _).subset hu, i, hi⟩

theorem rebalance_mem (pb : pickerBuilder) (draw : Nat → Nat) (u : connInfo)
    (h : u ∈ pb.connInfo) :
    ∃ i, ({ u with index := i } : connInfo) ∈ (rebalance pb draw).connInfo := by
  rw [rebalance_connInfo]
  exact reindex_mem _ 0 u ((Shuffle_perm draw _ _).symm.subset h)

theorem rebalance_fix (pb : pickerBuilder) (draw : Nat → Nat) :
    updatePinnedServerLocked (rebalance pb draw) = rebalance pb draw :=
  updatePinned_idem _

/-- A published selection is the address and handle of a ready record that no
ready record is less than. -/
theorem pinned_some_winner (pb : pickerBuilder) (p : pinnedConn)
    (hfix : updatePinnedServerLocked pb = pb) (hp : pb.pinned = some p) :
    ∃ w ∈ pb.connInfo, w.ready = true ∧ p = { addr := w.addr, conn := w.conn } ∧
      ∀ d ∈ pb.connInfo, d.ready = true → less d w = false := by
  by_cases hex : ∃ c ∈ pb.connInfo, c.ready = true
  · obtain ⟨c, hc, hr⟩ := hex
    obtain ⟨w, hw, hwr, hpin, hmin⟩ := updatePinned_some pb c hc hr
    rw [hfix, hp] at hpin
    exact ⟨w, hw, hwr, Option.some.inj hpin, hmin⟩
  · have hno : ∀ c ∈ pb.connInfo, c.ready = false := by
      intro c hc
      cases hr : c.ready with
      | false => rfl
      | true => exact absurd ⟨c, hc, hr⟩ hex
    have := updatePinned_none pb hno
    rw [hfix, hp] at this
    exact absurd this (by simp)

/-- C17. In a state reached from a fresh `pickerBuilder` by calls that report
fewer than `2^64` failures, and for every sequence of draws: if at most one
ready record has `failedAt = 0`, `rebalance` leaves the published selection as
it is; and of two records with different addresses and `failedAt > 0`, the one
that ranks ahead of the other before `rebalance` ranks ahead of it afterwards. -/
theorem C17_rebalance_failed (ops : List Op) (draw : Nat → Nat)
    (hw : witnessCount ops < 2 ^ 64) :
    ((∀ c ∈ (run ops newPickerBuilder).connInfo, ∀ d ∈ (run ops newPickerBuilder).connInfo,
        c.ready = true → d.ready = true → c.failedAt = 0 → d.failedAt = 0 → c = d) →
      (rebalance (run ops newPickerBuilder) draw).pinned = (run ops newPickerBuilder).pinned) ∧
    (∀ a ∈ (run ops newPickerBuilder).connInfo, ∀ b ∈ (run ops newPickerBuilder).connInfo,
      ∀ a2 ∈ (rebalance (run ops newPickerBuilder) draw).connInfo,
      ∀ b2 ∈ (rebalance (run ops newPickerBuilder) draw).connInfo,
        a2.addr = a.addr → b2.addr = b.addr → a.addr ≠ b.addr →
        0 < a.failedAt → 0 < b.failedAt → less a2 b2 = less a b) := by
  obtain ⟨_, _, hp⟩ := run_clock ops newPickerBuilder 0 (Nat.le_refl _) (by omega)
    (fun c hc => absurd hc (List.not_mem_nil _)) (by simp [newPickerBuilder])
  have hn := run_keys_nodup ops newPickerBuilder newPickerBuilder_keys
  have hfix := run_fix ops newPickerBuilder newPickerBuilder_fix
  rw [List.pairwise_map] at hp
  have hsym : Symmetric (fun a b : connInfo => a.failedAt = b.failedAt → a.failedAt = 0) := by
    intro a b hab hba
    rw [hba]
    exact hab hba.symm
  have hdist : ∀ c ∈ (run ops newPickerBuilder).connInfo,
      ∀ d ∈ (run ops newPickerBuilder).connInfo,
      c.failedAt = d.failedAt → 0 < c.failedAt → c = d := by
    intro c hc d hd hEq hpos
    by_contra hne
    have := List.Pairwise.forall hsym hp hc hd hne hEq
    omega
  generalize run ops newPickerBuilder = pb at hn hfix hdist
  constructor
  · intro hzero
    have e1 : (rebalance pb draw).pinned =
        (updatePinnedServerLocked (rebalance pb draw)).pinned := by rw [rebalance_fix]
    have e2 : pb.pinned = (updatePinnedServerLocked pb).pinned := by rw [hfix]
    rw [e1, e2]
    by_cases hex : ∃ c ∈ pb.connInfo, c.ready = true
    · obtain ⟨c, hc, hr⟩ := hex
      obtain ⟨w, hw, hwr, hpin, hmin⟩ := updatePinned_some pb c hc hr
      obtain ⟨i, hi⟩ := rebalance_mem pb draw c hc
      obtain ⟨w2, hw2, hw2r, hpin2, hmin2⟩ :=
        updatePinned_some (rebalance pb draw) { c with index := i } hi hr
      obtain ⟨u, hu, k, huk⟩ := mem_rebalance pb draw w2 hw2
      obtain ⟨j, hj⟩ := rebalance_mem pb draw w hw
      have hur : u.ready = true := by rw [huk] at hw2r; exact hw2r
      have h1 := (less_eq_false_iff _ _).1 (hmin2 { w with index := j } hj hwr)
      have h2 := (less_eq_false_iff _ _).1 (hmin u hu hur)
      have hf : w2.failedAt = u.failedAt := by rw [huk]
      have hEq : u.failedAt = w.failedAt := by
        simp only [hf] at h1
        omega
      have huw : u = w := by
        by_cases h0 : u.failedAt = 0
        · exact hzero u hu w hw hur hwr h0 (hEq ▸ h0)
        · exact hdist u hu w hw hEq (Nat.pos_of_ne_zero h0)
      rw [hpin, hpin2, huk, huw]
    · have hno : ∀ c ∈ pb.connInfo, c.ready = false := by
        intro c hc
        cases hr : c.ready with
        | false => rfl
        | true => exact absurd ⟨c, hc, hr⟩ hex
      rw [updatePinned_none pb hno, updatePinned_none (rebalance pb draw)]
      intro c hc
      obtain ⟨u, hu, k, huk⟩ := mem_rebalance pb draw c hc
      rw [huk]
      exact hno u hu
  · intro a ha b hb a2 ha2 b2 hb2 haa hbb hab hapos hbpos
    obtain ⟨u, hu, k, huk⟩ := mem_rebalance pb draw a2 ha2
    obtain ⟨v, hv, l, hvl⟩ := mem_rebalance pb draw b2 hb2
    have hua : u = a := by
      have h1 := Get_of_mem_nodup _ u hn hu
      have h2 := Get_of_mem_nodup _ a hn ha
      have : u.addr = a.addr := by rw [← haa, huk]
      rw [this, h2] at h1
      exact (Option.some.inj h1).symm
    have hvb : v = b := by
      have h1 := Get_of_mem_nodup _ v hn hv
      have h2 := Get_of_mem_nodup _ b hn hb
      have : v.addr = b.addr := by rw [← hbb, hvl]
      rw [this, h2] at h1
      exact (Option.some.inj h1).symm
    have hne : a.failedAt ≠ b.failedAt := by
      intro hEq
      have := hdist a ha b hb hEq hapos
      exact hab (by rw [this])
    rw [huk, hvl, hua, hvb]
    rw [Bool.eq_iff_iff, less_iff, less_iff]
    simp only []
    omega

/-- C17 after A and B became ready and a call on A failed: only B is ready with
`failedAt = 0`, and a `rebalance` that gives B a new index keeps B published. -/
theorem C17_rebalance_failed_witness :
    (rebalance (run opsAFailed newPickerBuilder) (fun _ => 0)).pinned =
      (run opsAFailed newPickerBuilder).pinned :=
  (C17_rebalance_failed opsAFailed (fun _ => 0) (by decide)).1 (by decide)

/-! ## C14: what moves the published selection -/

/-- With pairwise distinct indices, a ready record that no ready record is less
than is the one that gets published. -/
theorem pinned_of_minimal (qb : pickerBuilder) (x : connInfo)
    (hx : x ∈ qb.connInfo) (hxr : x.ready = true)
    (hmin : ∀ d ∈ qb.connInfo, d.ready = true → less d x = false)
    (hidx : (qb.connInfo.map (fun c => c.index)).Nodup) :
    (updatePinnedServerLocked qb).pinned = some { addr := x.addr, conn := x.conn } := by
  obtain ⟨w, hw, hwr, hpin, hmin2⟩ := updatePinned_some qb x hx hxr
  have h1 := (less_eq_false_iff _ _).1 (hmin w hw hwr)
  have h2 := (less_eq_false_iff _ _).1 (hmin2 x hx hxr)
  have hwx : w = x := List.inj_on_of_nodup_map hidx hw hx (by omega)
  rw [hpin, hwx]

/-- When failed records have pairwise different `failedAt` and at most one
ready record has never failed, `rebalance` keeps the published selection. -/
theorem rebalance_keeps_pinned (pb : pickerBuilder) (draw : Nat → Nat)
    (hfix : updatePinnedServerLocked pb = pb)
    (hdist : ∀ c ∈ pb.connInfo, ∀ d ∈ pb.connInfo,
      c.failedAt = d.failedAt → 0 < c.failedAt → c = d)
    (hzero : ∀ c ∈ pb.connInfo, ∀ d ∈ pb.connInfo,
      c.ready = true → d.ready = true → c.failedAt = 0 → d.failedAt = 0 → c = d) :
    (rebalance pb draw).pinned = pb.pinned := by
  have e1 : (rebalance pb draw).pinned =
      (updatePinnedServerLocked (rebalance pb draw)).pinned := by rw [rebalance_fix]
  have e2 : pb.pinned = (updatePinnedServerLocked pb).pinned := by rw [hfix]
  rw [e1, e2]
  by_cases hex : ∃ c ∈ pb.connInfo, c.ready = true
  · obtain ⟨c, hc, hr⟩ := hex
    obtain ⟨w, hw, hwr, hpin, hmin⟩ := updatePinned_some pb c hc hr
    obtain ⟨i, hi⟩ := rebalance_mem pb draw c hc
    obtain ⟨w2, hw2, hw2r, hpin2, hmin2⟩ :=
      updatePinned_some (rebalance pb draw) { c with index := i } hi hr
    obtain ⟨u, hu, k, huk⟩ := mem_rebalance pb draw w2 hw2
    obtain ⟨j, hj⟩ := rebalance_mem pb draw w hw
    have hur : u.ready = true := by rw [huk] at hw2r; exact hw2r
    have h1 := (less_eq_false_iff _ _).1 (hmin2 { w with index := j } hj hwr)
    have h2 := (less_eq_false_iff _ _).1 (hmin u hu hur)
    have hf : w2.failedAt = u.failedAt := by rw [huk]
    have hEq : u.failedAt = w.failedAt := by
      simp only [hf] at h1
      omega
    have huw : u = w := by
      by_cases h0 : u.failedAt = 0
      · exact hzero u hu w hw hur hwr h0 (hEq ▸ h0)
      · exact hdist u hu w hw hEq (Nat.pos_of_ne_zero h0)
    rw [hpin, hpin2, huk, huw]
  · have hno : ∀ c ∈ pb.connInfo, c.ready = false := by
      intro c hc
      cases hr : c.ready with
      | false => rfl
      | true => exact absurd ⟨c, hc, hr⟩ hex
    rw [updatePinned_none pb hno, updatePinned_none (rebalance pb draw)]
    intro c hc
    obtain ⟨u, hu, k, huk⟩ := mem_rebalance pb draw c hc
    rw [huk]
    exact hno u hu

theorem ready_true_eta (w : connInfo) (h : w.ready = true) : { w with ready := true } = w := by
  cases w
  simp only [connInfo.mk.injEq, true_and]
  exact h.symm

/-- A `Build` whose snapshot names the published address keeps it published
when every record that is ready afterwards was ready before or ranks strictly
behind the published one. -/
theorem Build_keeps_pinned (pb : pickerBuilder) (r : List (SubConn × Address)) (w : connInfo)
    (hn : (AddressMap.Keys pb.connInfo).Nodup)
    (hidx : (pb.connInfo.map (fun c => c.index)).Nodup)
    (hw : w ∈ pb.connInfo) (hwr : w.ready = true)
    (hmin : ∀ d ∈ pb.connInfo, d.ready = true → less d w = false)
    (hX : w.addr ∈ r.map Prod.snd)
    (hnew : ∀ d ∈ (Build pb r).connInfo, d.ready = true →
      (∃ d0 ∈ pb.connInfo, d0.addr = d.addr ∧ d0.ready = true) ∨ less w d = true) :
    (Build pb r).pinned = some { addr := w.addr, conn := w.conn } := by
  have hn2 := Build_keys_nodup pb r hn
  have hgw : AddressMap.Get (Build pb r).connInfo w.addr = some w := by
    rw [Build_Get_tracked pb r w.addr w (Get_of_mem_nodup _ w hn hw)]
    simp only [hX, decide_True]
    rw [ready_true_eta w hwr]
  have hwB := (Get_some_mem _ _ _ hgw).1
  have hfix : Build pb r = updatePinnedServerLocked (Build pb r) := (updatePinned_idem _).symm
  obtain ⟨v, hv, hvr, hpin, hmin2⟩ := updatePinned_some (Build pb r) w hwB hwr
  rw [← hfix] at hpin
  have hwv := hmin2 w hwB hwr
  have hvw : v = w := by
    rcases hnew v hv hvr with ⟨d0, hd0, hd0a, hd0r⟩ | hlt
    · have hg0 : AddressMap.Get (Build pb r).connInfo v.addr =
          some { d0 with ready := decide (v.addr ∈ r.map Prod.snd) } := by
        rw [← hd0a]
        exact Build_Get_tracked pb r d0.addr d0 (Get_of_mem_nodup _ d0 hn hd0)
      rw [Get_of_mem_nodup _ v hn2 hv] at hg0
      have hv0 : v = { d0 with ready := decide (v.addr ∈ r.map Prod.snd) } :=
        Option.some.inj hg0
      have hrd : decide (v.addr ∈ r.map Prod.snd) = true := by
        rw [hv0] at hvr
        exact hvr
      rw [hrd, ready_true_eta d0 hd0r] at hv0
      rw [hv0] at hwv ⊢
      have h1 := (less_eq_false_iff _ _).1 hwv
      have h2 := (less_eq_false_iff _ _).1 (hmin d0 hd0 hd0r)
      exact List.inj_on_of_nodup_map hidx hd0 hw (by omega)
    · rw [hwv] at hlt
      exact absurd hlt (by decide)
  rw [hpin, hvw]

/-- C14, as the code has it.  In a state reached from a fresh `pickerBuilder`
whose tracked records have pairwise distinct indices and in which `p` is
published, each of the following calls leaves `p` published:
a `witnessError` on an address other than that of `p` (fewer than `2^64 - 1`
failures having been reported); a `forgetOldConns` whose address list contains
the address of `p`; a `Build` whose snapshot names the address of `p` and after
which every ready record was ready before or ranks strictly behind the record
of `p`, in particular a `Build` whose snapshot names only addresses that were
tracked and ready; a `rebalance` when at most one ready record has never
failed (fewer than `2^64` failures having been reported). -/
theorem C14_sticky (ops : List Op) (p : pinnedConn)
    (hidx : ((run ops newPickerBuilder).connInfo.map (fun c => c.index)).Nodup)
    (hp : (run ops newPickerBuilder).pinned = some p) :
    (witnessCount ops + 1 < 2 ^ 64 → ∀ Y err, Y ≠ p.addr →
      (witnessError (run ops newPickerBuilder) Y err).pinned = some p) ∧
    (∀ L, p.addr ∈ L → (forgetOldConns (run ops newPickerBuilder) L).pinned = some p) ∧
    (∀ r : List (SubConn × Address), p.addr ∈ r.map Prod.snd →
      ∀ w, AddressMap.Get (run ops newPickerBuilder).connInfo p.addr = some w →
      (∀ d ∈ (Build (run ops newPickerBuilder) r).connInfo, d.ready = true →
        (∃ d0 ∈ (run ops newPickerBuilder).connInfo, d0.addr = d.addr ∧ d0.ready = true) ∨
          less w d = true) →
      (Build (run ops newPickerBuilder) r).pinned = some p) ∧
    (∀ r : List (SubConn × Address), p.addr ∈ r.map Prod.snd →
      (∀ a ∈ r.map Prod.snd,
        ∃ d0, AddressMap.Get (run ops newPickerBuilder).connInfo a = some d0 ∧
          d0.ready = true) →
      (Build (run ops newPickerBuilder) r).pinned = some p) ∧
    (witnessCount ops < 2 ^ 64 → ∀ draw,
      (∀ c ∈ (run ops newPickerBuilder).connInfo, ∀ d ∈ (run ops newPickerBuilder).connInfo,
        c.ready = true → d.ready = true → c.failedAt = 0 → d.failedAt = 0 → c = d) →
      (rebalance (run ops newPickerBuilder) draw).pinned = some p) := by
  have hn := run_keys_nodup ops newPickerBuilder newPickerBuilder_keys
  have hfix := run_fix ops newPickerBuilder newPickerBuilder_fix
  obtain ⟨w, hw, hwr, hpw, hmin⟩ := pinned_some_winner _ p hfix hp
  have hgetw := Get_of_mem_nodup _ w hn hw
  have hpa : p.addr = w.addr := by rw [hpw]
  have hbuild : ∀ r : List (SubConn × Address), p.addr ∈ r.map Prod.snd →
      ∀ w2, AddressMap.Get (run ops newPickerBuilder).connInfo p.addr = some w2 →
      (∀ d ∈ (Build (run ops newPickerBuilder) r).connInfo, d.ready = true →
        (∃ d0 ∈ (run ops newPickerBuilder).connInfo, d0.addr = d.addr ∧ d0.ready = true) ∨
          less w2 d = true) →
      (Build (run ops newPickerBuilder) r).pinned = some p := by
    intro r hr w2 hw2 hnew
    rw [hpa, hgetw] at hw2
    have hww : w2 = w := (Option.some.inj hw2).symm
    rw [hww] at hnew
    rw [hpw]
    exact Build_keeps_pinned _ r w hn hidx hw hwr hmin (by rw [← hpa]; exact hr) hnew
  refine ⟨?_, ?_, hbuild, ?_, ?_⟩
  · intro hcount Y err hY
    obtain ⟨hclk, hbound⟩ := run_failedAt ops newPickerBuilder 0 (Nat.le_refl _) (by omega)
      (fun c hc => absurd hc (List.not_mem_nil _))
    cases hg : AddressMap.Get (run ops newPickerBuilder).connInfo Y with
    | none => rw [witnessError_untracked _ Y err hg]; exact hp
    | some cy =>
      have hmod : ((run ops newPickerBuilder).failureClock + 1) % 2 ^ 64 =
          (run ops newPickerBuilder).failureClock + 1 := Nat.mod_eq_of_lt (by omega)
      rw [witnessError_tracked _ Y err cy hg, hmod, hpw]
      have hwY : w.addr ≠ Y := by
        intro e
        exact hY (by rw [hpw]; exact e.symm)
      have hG := Get_Modify
        (fun v : connInfo => { v with failedAt := (run ops newPickerBuilder).failureClock + 1 })
        (fun _ => rfl) (run ops newPickerBuilder).connInfo Y w.addr
      rw [if_neg hwY, hgetw] at hG
      apply pinned_of_minimal _ w (Get_some_mem _ _ _ hG).1 hwr
      · intro d hd hdr
        rcases mem_Modify _ _ _ _ hd with h1 | ⟨e, _, hde⟩
        · exact hmin d h1 hdr
        · rw [less_eq_false_iff]
          left
          have := hbound w hw
          rw [hde]
          show w.failedAt < (run ops newPickerBuilder).failureClock + 1
          omega
      · show ((AddressMap.Modify _ Y _).map (fun c => c.index)).Nodup
        rw [Modify_map (fun c => c.index)]
        · exact hidx
        · intro _
          rfl
  · intro L hL
    rw [forgetOldConns_eq, hpw]
    have hwL : w.addr ∈ L := by
      rw [hpw] at hL
      exact hL
    apply pinned_of_minimal _ w (List.mem_filter.2 ⟨hw, by simpa using hwL⟩) hwr
    · intro d hd hdr
      exact hmin d (List.mem_of_mem_filter hd) hdr
    · exact List.Nodup.sublist (List.Sublist.map _ (List.filter_sublist _)) hidx
  · intro r hr hall
    refine hbuild r hr w (by rw [hpa]; exact hgetw) ?_
    intro d hd hdr
    left
    have hn2 := Build_keys_nodup _ r hn
    have hgd := Get_of_mem_nodup _ d hn2 hd
    by_cases hda : d.addr ∈ r.map Prod.snd
    · obtain ⟨d0, hd0, hd0r⟩ := hall d.addr hda
      exact ⟨d0, (Get_some_mem _ _ _ hd0).1, (Get_some_mem _ _ _ hd0).2, hd0r⟩
    · cases hg : AddressMap.Get (run ops newPickerBuilder).connInfo d.addr with
      | none =>
        rw [Build_Get_untracked _ r d.addr hg hda] at hgd
        exact absurd hgd (by simp)
      | some d1 =>
        rw [Build_Get_tracked _ r d.addr d1 hg] at hgd
        have hdd := Option.some.inj hgd
        rw [← hdd] at hdr
        simp [hda] at hdr
  · intro hcount draw hzero
    obtain ⟨_, _, hpair⟩ := run_clock ops newPickerBuilder 0 (Nat.le_refl _) (by omega)
      (fun c hc => absurd hc (List.not_mem_nil _)) (by simp [newPickerBuilder])
    rw [List.pairwise_map] at hpair
    have hsym : Symmetric (fun a b : connInfo => a.failedAt = b.failedAt → a.failedAt = 0) := by
      intro a b hab hba
      rw [hba]
      exact hab hba.symm
    have hdist : ∀ c ∈ (run ops newPickerBuilder).connInfo,
        ∀ d ∈ (run ops newPickerBuilder).connInfo,
        c.failedAt = d.failedAt → 0 < c.failedAt → c = d := by
      intro c hc d hd hEq hpos
      by_contra hne
      have := List.Pairwise.forall hsym hpair hc hd hne hEq
      omega
    rw [rebalance_keeps_pinned _ draw hfix hdist hzero]
    exact hp

/-- C14 after A and B became ready, A being published: a failure of B, a
resolver update that keeps A, and a `Build` that again reports A and B ready
all leave A published. -/
theorem C14_sticky_witness :
    (witnessError (run opsTwoReady newPickerBuilder) addrB errExhausted).pinned =
      some { addr := addrA, conn := 11 } ∧
    (forgetOldConns (run opsTwoReady newPickerBuilder) [addrA]).pinned =
      some { addr := addrA, conn := 11 } ∧
    (Build (run opsTwoReady newPickerBuilder) [(12, addrB), (11, addrA)]).pinned =
      some { addr := addrA, conn := 11 } :=
  ⟨(C14_sticky opsTwoReady { addr := addrA, conn := 11 } (by decide) (by decide)).1
      (by decide) addrB errExhausted (by decide),
    (C14_sticky opsTwoReady { addr := addrA, conn := 11 } (by decide) (by decide)).2.1
      [addrA] (by decide),
    (C14_sticky opsTwoReady { addr := addrA, conn := 11 } (by decide) (by decide)).2.2.2.1
      [(12, addrB), (11, addrA)] (by decide) (by decide)⟩

/-- C14 fails as stated.  With A published, a `rebalance` publishes B; and with
B published (A being tracked but not ready), a `Build` whose snapshot names
both A and B publishes A.  Neither call reports the published connection
unhealthy. -/
theorem C14_counterexample :
    (run opsTwoReady newPickerBuilder).pinned = some { addr := addrA, conn := 11 } ∧
    (rebalance (run opsTwoReady newPickerBuilder) (fun _ => 0)).pinned =
      some { addr := addrB, conn := 12 } ∧
    (run opsOnlyB newPickerBuilder).pinned = some { addr := addrB, conn := 12 } ∧
    (Build (run opsOnlyB newPickerBuilder) [(11, addrA), (12, addrB)]).pinned =
      some { addr := addrA, conn := 11 } := by
  decide

/-! ## C10: forgetOldConns twice -/

theorem updatePinnedIn_id (pb : pickerBuilder) :
    updatePinnedServerLockedIn id pb = updatePinnedServerLocked pb := rfl

theorem forgetOldConnsIn_id (pb : pickerBuilder) (L : List Address) :
    forgetOldConnsIn id pb L = forgetOldConns pb L := rfl

theorem updatePinnedIn_connInfo (enum : List connInfo → List connInfo) (pb : pickerBuilder) :
    (updatePinnedServerLockedIn enum pb).connInfo = pb.connInfo ∧
    (updatePinnedServerLockedIn enum pb).maxIndex = pb.maxIndex ∧
    (updatePinnedServerLockedIn enum pb).failureClock = pb.failureClock := by
  unfold updatePinnedServerLockedIn
  simp only
  split
  · exact ⟨rfl, rfl, rfl⟩
  · split <;> exact ⟨rfl, rfl, rfl⟩

theorem updatePinnedIn_pinned (enum : List connInfo → List connInfo) (pb : pickerBuilder) :
    (updatePinnedServerLockedIn enum pb).pinned =
      (updatePinnedServerLocked { pb with connInfo := enum pb.connInfo }).pinned := by
  unfold updatePinnedServerLockedIn updatePinnedServerLocked AddressMap.Values
  simp only
  split
  · rfl
  · split <;> rfl

/-- With pairwise distinct indices the published selection is the same for
every order in which `Values()` enumerates the inventory. -/
theorem updatePinnedIn_pinned_eq (enum : List connInfo → List connInfo) (pb : pickerBuilder)
    (henum : (enum pb.connInfo).Perm pb.connInfo)
    (hnd : (pb.connInfo.map (fun c => c.index)).Nodup) :
    (updatePinnedServerLockedIn enum pb).pinned = (updatePinnedServerLocked pb).pinned := by
  rw [updatePinnedIn_pinned]
  exact (updatePinned_perm pb { pb with connInfo := enum pb.connInfo } henum.symm hnd).symm

theorem forgetOldConnsIn_eq (enum : List connInfo → List connInfo) (pb : pickerBuilder)
    (L : List Address) :
    forgetOldConnsIn enum pb L =
      updatePinnedServerLockedIn enum
        { pb with connInfo := pb.connInfo.filter (fun c => decide (c.addr ∈ L)) } := by
  unfold forgetOldConnsIn
  simp only [forget_filter]

/-- With pairwise distinct indices, `forgetOldConns` is idempotent whatever the
orders in which `Values()` enumerates the inventory at the calls compared. -/
theorem forgetOldConnsIn_idempotent (e1 e2 e3 : List connInfo → List connInfo)
    (h2 : ∀ m, (e2 m).Perm m) (h3 : ∀ m, (e3 m).Perm m)
    (pb : pickerBuilder) (L : List Address)
    (hnd : (pb.connInfo.map (fun c => c.index)).Nodup) :
    forgetOldConnsIn e2 (forgetOldConnsIn e1 pb L) L = forgetOldConnsIn e3 pb L := by
  have hnd2 : ((pb.connInfo.filter (fun c => decide (c.addr ∈ L))).map
      (fun c => c.index)).Nodup :=
    List.Nodup.sublist (List.Sublist.map _ (List.filter_sublist _)) hnd
  have hc1 : (forgetOldConnsIn e1 pb L).connInfo =
      pb.connInfo.filter (fun c => decide (c.addr ∈ L)) := by
    rw [forgetOldConnsIn_eq, (updatePinnedIn_connInfo _ _).1]
  have hff : (pb.connInfo.filter (fun c => decide (c.addr ∈ L))).filter
      (fun c => decide (c.addr ∈ L)) = pb.connInfo.filter (fun c => decide (c.addr ∈ L)) := by
    rw [List.filter_filter]
    apply List.filter_congr
    intro c _
    simp
  rw [forgetOldConnsIn_eq e2, forgetOldConnsIn_eq e3]
  apply pickerBuilder_ext
  · rw [updatePinnedIn_pinned_eq e2 _ (h2 _) (by simp only [hc1, hff]; exact hnd2),
      updatePinnedIn_pinned_eq e3 _ (h3 _) hnd2]
    apply updatePinned_pinned_congr
    simp only [hc1, hff]
  · rw [(updatePinnedIn_connInfo _ _).2.1, (updatePinnedIn_connInfo _ _).2.1,
      forgetOldConnsIn_eq e1, (updatePinnedIn_connInfo _ _).2.1]
  · rw [(updatePinnedIn_connInfo _ _).2.2, (updatePinnedIn_connInfo _ _).2.2,
      forgetOldConnsIn_eq e1, (updatePinnedIn_connInfo _ _).2.2]
  · rw [(updatePinnedIn_connInfo _ _).1, (updatePinnedIn_connInfo _ _).1]
    simp only [hc1, hff]

theorem run_churnOps : run churnOps newPickerBuilder = churnState 1 0 := by
  have h0 : step newPickerBuilder (Op.Build [(11, addrA), (12, addrB)]) = churnState 2 1 := by
    decide
  unfold churnOps
  rw [run_cons, h0, show (65535 : Nat) = 65534 + 1 from rfl, churn_iter 65534 2 1 (by decide)]
  congr 1

/-- C10 at the state reached by `churnOps`, where A and B are both ready with
index 0 and `failedAt = 0`: a first `forgetOldConns [A, B]`, with `Values()`
enumerating A before B, publishes A; a second one, with `Values()` enumerating
B before A, publishes B, although it changes nothing in the inventory, in
`failureClock` or in `maxIndex`. -/
theorem C10_idempotence_lost_on_tie :
    (forgetOldConnsIn id (run churnOps newPickerBuilder) [addrA, addrB]).pinned =
      some { addr := addrA, conn := 11 } ∧
    (forgetOldConnsIn List.reverse
        (forgetOldConnsIn id (run churnOps newPickerBuilder) [addrA, addrB])
        [addrA, addrB]).pinned =
      some { addr := addrB, conn := 12 } ∧
    (forgetOldConnsIn List.reverse
        (forgetOldConnsIn id (run churnOps newPickerBuilder) [addrA, addrB])
        [addrA, addrB]).connInfo =
      (forgetOldConnsIn id (run churnOps newPickerBuilder) [addrA, addrB]).connInfo := by
  rw [run_churnOps]
  decide

end GrpcSwitch
